import Mathlib

/-!
Shallow embedding of the dumbvm virtual-memory subsystem
(`kern/arch/mips/mips/dumbvm.c`): the buddy frame allocator, the
address-space operations and the TLB-miss fault handler, together with
proofs of the specification claims about them.

Machine integers are modelled as `Nat`; 32-bit wrap-around is written
explicitly as `% 4294967296` at the places where the C `u_int32_t`
arithmetic can overflow or underflow.  Code paths on which the kernel
cannot continue (a failed `assert`, a `panic`, an out-of-bounds array
access, or a loop that cannot terminate) are modelled as `none`.
-/

/-! ### Constants from the MIPS headers and the kernel headers

These values come from `machine/vm.h`, `machine/tlb.h`, `machine/spl.h`,
`kern/errno.h` and `dumbvm.c` itself; only `DUMBVM_STACKPAGES` is defined
in the source file under scrutiny, the rest are the standard OS/161
values.  The claims only depend on the error codes being distinct and
nonzero.
-/

def PAGE_SIZE : Nat := 4096

/-- `PAGE_FRAME = 0xfffff000`, the mask complementing `PAGE_SIZE` on 32 bits. -/
def PAGE_FRAME : Nat := 0xfffff000

/-- under dumbvm, always have 48k of user stack (`dumbvm.c` line 24) -/
def DUMBVM_STACKPAGES : Nat := 12

def NUM_TLB : Nat := 64

def TLBLO_DIRTY : Nat := 0x00000400

def TLBLO_VALID : Nat := 0x00000200

def VM_FAULT_READ : Nat := 0

def VM_FAULT_WRITE : Nat := 1

def VM_FAULT_READONLY : Nat := 2

def ENOMEM : Nat := 2

def EFAULT : Nat := 5

def EINVAL : Nat := 7

/-- The highest interrupt priority level set by `splhigh()`; any value
distinct from the lower levels works for the claims. -/
def SPL_HIGH : Nat := 1

/-- `2 ^ 32`, the modulus of `u_int32_t` arithmetic. -/
def U32 : Nat := 4294967296

/-! ### Data model -/

/-- `struct buddy_entry { u_int32_t paddr; int pages; int inuse; }` -/
structure buddy_entry where
  paddr : Nat
  pages : Nat
  inuse : Bool
deriving DecidableEq

/-- `struct addrspace` (from `addrspace.h`, with the fields `dumbvm.c` uses). -/
structure addrspace where
  as_vbase1 : Nat
  as_pbase1 : Nat
  as_npages1 : Nat
  as_vbase2 : Nat
  as_pbase2 : Nat
  as_npages2 : Nat
  as_stackvbase : Nat
  as_stackpbase : Nat
deriving DecidableEq

/-- The allocator's global state: `vm_initialized` and `buddylist`.
The growable array is modelled as a list; `array_getnum` is `length`,
`array_getguy` is indexing, `array_setguy` is `List.set` and
`array_add` is appending at the end. -/
structure vm_state where
  vm_initialized : Bool
  buddylist : List buddy_entry
deriving DecidableEq

/-! ### Frame allocator -/

/-- The scan loop of `find_buddy` (dumbvm.c lines 110-123): walk the list
keeping the chosen index and chosen entry, replacing the choice only on a
strictly smaller `pages` value, so ties keep the first occurrence.
`acc = none` models `chosen == -1`. -/
def find_go (l : List buddy_entry) (npages : Nat) (i : Nat)
    (acc : Option (Nat × buddy_entry)) : Option (Nat × buddy_entry) :=
  match l with
  | [] => acc
  | be :: rest =>
    let acc' :=
      if be.inuse = false ∧ npages ≤ be.pages then
        match acc with
        | none => some (i, be)
        | some (c, cb) => if be.pages < cb.pages then some (i, be) else some (c, cb)
      else acc
    find_go rest npages (i + 1) acc'

/-- `find_buddy` (dumbvm.c lines 102-126): best fit for the requested page
count; returns an index into the buddy list, `none` for `-1`. -/
def find_buddy (l : List buddy_entry) (npages : Nat) : Option Nat :=
  (find_go l npages 0 none).map Prod.fst

/-- The split loop of `calculate_buddy` (dumbvm.c lines 146-171):
while `nextsize >= npages`, overwrite slot `buddyi` with the left child
`(nextpaddr, nextsize)` and append the right child
`(nextpaddr + nextsize*PAGE_SIZE, oldsize - nextsize)`, then halve.
For `npages = 0` the C loop never terminates; that is modelled as `none`
(the guard `nextsize = 0` can only be reached with `npages = 0`). -/
def split_go (l : List buddy_entry) (buddyi : Nat) (nextpaddr : Nat)
    (oldsize nextsize npages : Nat) : Option (List buddy_entry) :=
  if npages ≤ nextsize then
    if h : nextsize = 0 then
      none
    else
      split_go
        ((l.set buddyi ⟨nextpaddr, nextsize, false⟩) ++
          [⟨nextpaddr + nextsize * PAGE_SIZE, oldsize - nextsize, false⟩])
        buddyi nextpaddr nextsize (nextsize / 2) npages
  else
    some l
termination_by nextsize
decreasing_by
  exact Nat.div_lt_self (Nat.pos_of_ne_zero h) (by omega)

/-- `be->inuse = 1` on the entry left in slot `i` after the split loop. -/
def mark_inuse (l : List buddy_entry) (i : Nat) : List buddy_entry :=
  match l[i]? with
  | none => l
  | some be => l.set i ⟨be.paddr, be.pages, true⟩

/-- `calculate_buddy` (dumbvm.c lines 129-175).  `find_buddy` returning
`-1` is passed unchecked to `array_getguy`, an out-of-bounds access on
which the kernel cannot continue; that path is `none`.  On success the
pair is the returned physical address and the updated buddy list. -/
def calculate_buddy (l : List buddy_entry) (npages : Nat) :
    Option (Nat × List buddy_entry) :=
  match find_buddy l npages with
  | none => none
  | some buddyi =>
    match l[buddyi]? with
    | none => none
    | some be =>
      match split_go l buddyi be.paddr be.pages (be.pages / 2) npages with
      | none => none
      | some l2 => some (be.paddr, mark_inuse l2 buddyi)

/-- `freeppage` (dumbvm.c lines 177-193): clear `inuse` on the first
entry whose `paddr` matches, if any. -/
def freeppage (l : List buddy_entry) (addr : Nat) : List buddy_entry :=
  match l with
  | [] => []
  | be :: rest =>
    if be.paddr = addr then ⟨be.paddr, be.pages, false⟩ :: rest
    else be :: freeppage rest addr

/-- `getppages` (dumbvm.c lines 210-226).  `ram_stealmem` is external
(pre-bootstrap bump allocator) and is passed in as `steal`.  The
`splhigh`/`splx` pair inside is balanced on every path and is omitted
from the state.  `none` models the `calculate_buddy` crash. -/
def getppages (steal : Nat → Nat) (st : vm_state) (npages : Nat) :
    Option (Nat × vm_state) :=
  if st.vm_initialized then
    match calculate_buddy st.buddylist npages with
    | none => none
    | some (addr, l') => some (addr, { st with buddylist := l' })
  else
    some (steal npages, st)

/-- The buddy list built by `vm_bootstrap` (dumbvm.c lines 67-98): one
entry covering `(hi - lo) / PAGE_SIZE` pages starting at `lo`. -/
def vm_bootstrap_list (lo hi : Nat) : List buddy_entry :=
  [⟨lo, (hi - lo) / PAGE_SIZE, false⟩]

/-! ### Invariant vocabulary -/

/-- Membership of an address in the page run of a block. -/
def bmem (a : Nat) (b : buddy_entry) : Prop :=
  b.paddr ≤ a ∧ a < b.paddr + b.pages * PAGE_SIZE

/-- The set of physical addresses covered by the blocks of a list. -/
def cover (l : List buddy_entry) : Set Nat :=
  { a | ∃ i, ∃ _ : i < l.length, bmem a l[i] }

/-- The set of physical addresses covered by one block. -/
def bset (b : buddy_entry) : Set Nat :=
  Set.Ico b.paddr (b.paddr + b.pages * PAGE_SIZE)

/-- The base addresses of the blocks currently marked in use. -/
def inuseSet (l : List buddy_entry) : Set Nat :=
  { p | ∃ i, ∃ _ : i < l.length, l[i].paddr = p ∧ l[i].inuse = true }

/-- The inductive invariant of the buddy list over the initial RAM range
`[lo, hi)`: exact coverage, pairwise non-overlap, positive sizes and
page-aligned bases. -/
structure buddyInv (lo hi : Nat) (l : List buddy_entry) : Prop where
  cover_iff : ∀ a, (∃ i, ∃ _ : i < l.length, bmem a l[i]) ↔ (lo ≤ a ∧ a < hi)
  disj : ∀ i j, ∀ _ : i < l.length, ∀ _ : j < l.length, i ≠ j →
    l[i].paddr + l[i].pages * PAGE_SIZE ≤ l[j].paddr ∨
    l[j].paddr + l[j].pages * PAGE_SIZE ≤ l[i].paddr
  pos : ∀ i, ∀ _ : i < l.length, 0 < l[i].pages
  aligned : ∀ i, ∀ _ : i < l.length, l[i].paddr % PAGE_SIZE = 0

/-- The states of the buddy list reachable from `vm_bootstrap` by
allocations (of a positive page count, per the allocator contract) and
frees. -/
inductive vm_reach (lo hi : Nat) : List buddy_entry → Prop
  | boot : vm_reach lo hi (vm_bootstrap_list lo hi)
  | alloc {l n a l'} : vm_reach lo hi l → 1 ≤ n →
      calculate_buddy l n = some (a, l') → vm_reach lo hi l'
  | free {l addr} : vm_reach lo hi l → vm_reach lo hi (freeppage l addr)

/-! ### Fault handler -/

/-- The TLB installation loop of `vm_fault` (dumbvm.c lines 325-336):
probe the slots in order, skip the ones whose low word has `TLBLO_VALID`
set, write `(ehi, elo)` into the first invalid one.  `none` models the
fall-through when every slot is valid. -/
def tlb_probe_write (tlb : List (Nat × Nat)) (ehi elo : Nat) :
    Option (List (Nat × Nat)) :=
  match tlb with
  | [] => none
  | (h, lo) :: rest =>
    if lo &&& TLBLO_VALID ≠ 0 then
      (tlb_probe_write rest ehi elo).map (fun r => (h, lo) :: r)
    else
      some ((ehi, elo) :: rest)

/-- `vm_fault` (dumbvm.c lines 246-342).  Inputs: the fault type and
address, `curthread->t_vmspace` (`none` when no address space is set),
the TLB contents and the interrupt priority level at entry.  Output:
`none` for a panic or a failed assertion; otherwise the return value,
the TLB contents and the interrupt priority level after the call.
`splhigh()` raises the level to `SPL_HIGH` saving the old level; note
that the `as == NULL` path returns without `splx(spl)`. -/
def vm_fault (faulttype faultaddress : Nat) (as? : Option addrspace)
    (tlb : List (Nat × Nat)) (spl : Nat) :
    Option (Nat × List (Nat × Nat) × Nat) :=
  let fa := faultaddress &&& PAGE_FRAME
  if faulttype = VM_FAULT_READONLY then
    none
  else if faulttype ≠ VM_FAULT_READ ∧ faulttype ≠ VM_FAULT_WRITE then
    some (EINVAL, tlb, spl)
  else
    match as? with
    | none => some (EFAULT, tlb, SPL_HIGH)
    | some as =>
      if as.as_vbase1 ≠ 0 ∧ as.as_pbase1 ≠ 0 ∧ as.as_npages1 ≠ 0 ∧
          as.as_vbase2 ≠ 0 ∧ as.as_pbase2 ≠ 0 ∧ as.as_npages2 ≠ 0 ∧
          as.as_stackpbase ≠ 0 ∧
          as.as_vbase1 &&& PAGE_FRAME = as.as_vbase1 ∧
          as.as_pbase1 &&& PAGE_FRAME = as.as_pbase1 ∧
          as.as_vbase2 &&& PAGE_FRAME = as.as_vbase2 ∧
          as.as_pbase2 &&& PAGE_FRAME = as.as_pbase2 ∧
          as.as_stackpbase &&& PAGE_FRAME = as.as_stackpbase then
        let vbase1 := as.as_vbase1
        let vtop1 := (vbase1 + as.as_npages1 * PAGE_SIZE) % U32
        let vbase2 := as.as_vbase2
        let vtop2 := (vbase2 + as.as_npages2 * PAGE_SIZE) % U32
        let stackbase := (as.as_stackvbase + U32 - DUMBVM_STACKPAGES * PAGE_SIZE) % U32
        let stacktop := as.as_stackvbase
        let paddr? : Option Nat :=
          if vbase1 ≤ fa ∧ fa < vtop1 then
            some (((fa - vbase1) + as.as_pbase1) % U32)
          else if vbase2 ≤ fa ∧ fa < vtop2 then
            some (((fa - vbase2) + as.as_pbase2) % U32)
          else if stackbase ≤ fa ∧ fa < stacktop then
            some (((fa - stackbase) + as.as_stackpbase) % U32)
          else
            none
        match paddr? with
        | none => some (EFAULT, tlb, spl)
        | some paddr =>
          if paddr &&& PAGE_FRAME = paddr then
            match tlb_probe_write tlb fa (paddr ||| TLBLO_DIRTY ||| TLBLO_VALID) with
            | some tlb' => some (0, tlb', spl)
            | none => some (EFAULT, tlb, spl)
          else
            none
      else
        none

/-! ### Address space operations -/

/-- `as_create` (dumbvm.c lines 344-362), with `kmalloc` assumed to
succeed: the zero-initialized descriptor. -/
def as_create : addrspace :=
  ⟨0, 0, 0, 0, 0, 0, 0, 0⟩

/-- `as_destroy` (dumbvm.c lines 364-371): free the three physical
bases through the allocator; `kfree` of the descriptor has no effect on
the modelled state. -/
def as_destroy (st : vm_state) (as : addrspace) : vm_state :=
  { st with buddylist :=
      freeppage (freeppage (freeppage st.buddylist as.as_pbase1)
        as.as_pbase2) as.as_stackpbase }

/-- `as_prepare_load` (dumbvm.c lines 439-462).  `none` models a failed
entry assertion or a `getppages` crash; otherwise the result is the
return value, the updated address space and the updated allocator
state. -/
def as_prepare_load (steal : Nat → Nat) (st : vm_state) (as : addrspace) :
    Option (Nat × addrspace × vm_state) :=
  if as.as_pbase1 = 0 ∧ as.as_pbase2 = 0 ∧ as.as_stackpbase = 0 then
    match getppages steal st as.as_npages1 with
    | none => none
    | some (p1, st1) =>
      let as1 := { as with as_pbase1 := p1 }
      if p1 = 0 then some (ENOMEM, as1, st1)
      else
        match getppages steal st1 as.as_npages2 with
        | none => none
        | some (p2, st2) =>
          let as2 := { as1 with as_pbase2 := p2 }
          if p2 = 0 then some (ENOMEM, as2, st2)
          else
            match getppages steal st2 DUMBVM_STACKPAGES with
            | none => none
            | some (p3, st3) =>
              let as3 := { as2 with as_stackpbase := p3 }
              if p3 = 0 then some (ENOMEM, as3, st3)
              else some (0, as3, st3)
  else
    none

/-- `as_define_stack` (dumbvm.c lines 472-499), the ASLR stack: `rand`
is the 4-byte value read from the random device.  `none` models the
failed assertion; otherwise the result is the return value, the updated
address space and the value written to `*stackptr`. -/
def as_define_stack (as : addrspace) (rand : Nat) :
    Option (Nat × addrspace × Nat) :=
  if as.as_stackpbase = 0 then
    none
  else
    let r := (rand % U32) % 0x7fa40000
    let newstack := (0x005c0000 + r) &&& PAGE_FRAME
    some (0, { as with as_stackvbase := newstack }, newstack)

/-- `as_copy` (dumbvm.c lines 501-540), with `kmalloc` inside
`as_create` assumed to succeed.  The `memmove`s act on physical memory
contents, which are outside the modelled state.  The last component is
the value written through `ret`, `none` when `*ret` is left
unmodified. -/
def as_copy (steal : Nat → Nat) (st : vm_state) (old : addrspace) :
    Option (Nat × vm_state × Option addrspace) :=
  let new0 : addrspace :=
    { as_create with
        as_vbase1 := old.as_vbase1, as_npages1 := old.as_npages1,
        as_vbase2 := old.as_vbase2, as_npages2 := old.as_npages2,
        as_stackvbase := old.as_stackvbase }
  match as_prepare_load steal st new0 with
  | none => none
  | some (r, new1, st1) =>
    if r ≠ 0 then
      some (ENOMEM, as_destroy st1 new1, none)
    else
      if new1.as_pbase1 ≠ 0 ∧ new1.as_pbase2 ≠ 0 ∧ new1.as_stackpbase ≠ 0 then
        some (0, st1, some new1)
      else
        none

/-! ### Bridging `&&&`/`|||` with arithmetic on 32-bit values -/

theorem land_page_frame (x : Nat) (hx : x < U32) :
    x &&& PAGE_FRAME = x / PAGE_SIZE * PAGE_SIZE := by
  have h1 : PAGE_FRAME = 2 ^ 12 * (2 ^ 20 - 1) := by decide
  have h2 : x / PAGE_SIZE * PAGE_SIZE = 2 ^ 12 * (x >>> 12) := by
    rw [Nat.shiftRight_eq_div_pow]
    show x / 4096 * 4096 = 2 ^ 12 * (x / 2 ^ 12)
    norm_num [Nat.mul_comm]
  apply Nat.eq_of_testBit_eq
  intro i
  rw [Nat.testBit_and, h1, h2, Nat.testBit_mul_pow_two, Nat.testBit_mul_pow_two,
    Nat.testBit_two_pow_sub_one, Nat.testBit_shiftRight]
  by_cases h12 : 12 ≤ i
  · by_cases h32 : i < 32
    · rw [decide_eq_true (show i ≥ 12 by omega),
        decide_eq_true (show i - 12 < 20 by omega),
        show 12 + (i - 12) = i by omega]
      simp
    · have hxi : x.testBit i = false := by
        apply Nat.testBit_lt_two_pow
        calc x < U32 := hx
          _ = 2 ^ 32 := by decide
          _ ≤ 2 ^ i := Nat.pow_le_pow_right (by omega) (by omega)
      rw [decide_eq_true (show i ≥ 12 by omega),
        decide_eq_false (show ¬(i - 12 < 20) by omega),
        show 12 + (i - 12) = i by omega, hxi]
      simp
  · rw [decide_eq_false (show ¬(i ≥ 12) by omega)]
    simp

theorem lor_eq_add_of_mod (k a c : Nat) (ha : a % 2 ^ k = 0) (hc : c < 2 ^ k) :
    a ||| c = a + c := by
  have h : 2 ^ k * (a / 2 ^ k) = a := Nat.mul_div_cancel' (Nat.dvd_of_mod_eq_zero ha)
  calc a ||| c = 2 ^ k * (a / 2 ^ k) ||| c := by rw [h]
    _ = 2 ^ k * (a / 2 ^ k) + c := (Nat.mul_add_lt_is_or hc _).symm
    _ = a + c := by rw [h]

theorem land_bit_of_odd_div (a k : Nat) (h : a / 2 ^ k % 2 = 1) :
    a &&& 2 ^ k = 2 ^ k := by
  apply Nat.eq_of_testBit_eq
  intro i
  rw [Nat.testBit_and]
  rcases eq_or_ne k i with rfl | hik
  · rw [Nat.testBit_two_pow_self]
    simp [Nat.testBit_to_div_mod, h]
  · simp [Nat.testBit_two_pow_of_ne hik]

/-- Decomposition of `paddr | TLBLO_DIRTY | TLBLO_VALID` for a
page-aligned `paddr`. -/
theorem elo_eq_add (p : Nat) (hp : p % PAGE_SIZE = 0) :
    p ||| TLBLO_DIRTY ||| TLBLO_VALID = p + 0x600 := by
  have h1 : p ||| TLBLO_DIRTY = p + 0x400 := by
    apply lor_eq_add_of_mod 12
    · show p % 4096 = 0
      norm_num [PAGE_SIZE] at hp
      omega
    · decide
  rw [h1]
  apply lor_eq_add_of_mod 10
  · show (p + 0x400) % 1024 = 0
    norm_num [PAGE_SIZE] at hp
    omega
  · decide

theorem elo_valid_set (p : Nat) (hp : p % PAGE_SIZE = 0) :
    (p ||| TLBLO_DIRTY ||| TLBLO_VALID) &&& TLBLO_VALID = TLBLO_VALID := by
  rw [elo_eq_add p hp]
  show (p + 0x600) &&& 0x200 = 0x200
  have h : (0x200 : Nat) = 2 ^ 9 := by decide
  rw [h]
  apply land_bit_of_odd_div
  norm_num [PAGE_SIZE] at hp
  omega

theorem elo_dirty_set (p : Nat) (hp : p % PAGE_SIZE = 0) :
    (p ||| TLBLO_DIRTY ||| TLBLO_VALID) &&& TLBLO_DIRTY = TLBLO_DIRTY := by
  rw [elo_eq_add p hp]
  show (p + 0x600) &&& 0x400 = 0x400
  have h : (0x400 : Nat) = 2 ^ 10 := by decide
  rw [h]
  apply land_bit_of_odd_div
  norm_num [PAGE_SIZE] at hp
  omega

theorem elo_page_frame (p : Nat) (hp : p % PAGE_SIZE = 0) (hlt : p + 0x600 < U32) :
    (p ||| TLBLO_DIRTY ||| TLBLO_VALID) &&& PAGE_FRAME = p := by
  rw [elo_eq_add p hp, land_page_frame _ hlt]
  show (p + 0x600) / 4096 * 4096 = p
  norm_num [PAGE_SIZE] at hp
  omega

/-- `x & PAGE_FRAME` is page-aligned, below `2^32` and at most `x`. -/
theorem land_page_frame_props (x : Nat) :
    (x &&& PAGE_FRAME) % PAGE_SIZE = 0 ∧ x &&& PAGE_FRAME < U32 ∧
      x &&& PAGE_FRAME ≤ x := by
  have hle : x &&& PAGE_FRAME ≤ PAGE_FRAME := Nat.and_le_right
  have hle' : x &&& PAGE_FRAME ≤ x := Nat.and_le_left
  have hlt : x &&& PAGE_FRAME < U32 := by
    have : (PAGE_FRAME : Nat) < U32 := by decide
    omega
  refine ⟨?_, hlt, hle'⟩
  by_cases hx : x < U32
  · rw [land_page_frame x hx]
    show x / 4096 * 4096 % 4096 = 0
    omega
  · have hx' : x &&& PAGE_FRAME = (x % U32) &&& PAGE_FRAME := by
      have hu : (U32 : Nat) = 2 ^ 32 := by decide
      apply Nat.eq_of_testBit_eq
      intro i
      rw [Nat.testBit_and, Nat.testBit_and, hu, Nat.testBit_mod_two_pow]
      by_cases h32 : i < 32
      · simp [h32]
      · have hpf : PAGE_FRAME.testBit i = false := by
          apply Nat.testBit_lt_two_pow
          calc (PAGE_FRAME : Nat) < 2 ^ 32 := by decide
            _ ≤ 2 ^ i := Nat.pow_le_pow_right (by omega) (by omega)
        simp [hpf]
    rw [hx', land_page_frame _ (Nat.mod_lt _ (by decide))]
    show x % U32 / 4096 * 4096 % 4096 = 0
    omega

/-! ### C7: as_define_stack -/

/-- C7: for every address space with a nonzero `stackpbase` and every
4-byte value read from the random device, `as_define_stack` returns 0
and stores into `stackvbase` a page-aligned value in
`[0x005c0000, 0x80000000)`, computed by reducing the random value modulo
`0x7fa40000`, adding `0x005c0000` and masking with `PAGE_FRAME`; the
same value is written to `*stackptr`. -/
theorem as_define_stack_spec (as : addrspace) (rand : Nat)
    (hsp : as.as_stackpbase ≠ 0) (hr : rand < U32) :
    ∃ ptr,
      as_define_stack as rand = some (0, { as with as_stackvbase := ptr }, ptr) ∧
      ptr = (rand % 0x7fa40000 + 0x005c0000) &&& PAGE_FRAME ∧
      ptr % PAGE_SIZE = 0 ∧ 0x005c0000 ≤ ptr ∧ ptr < 0x80000000 := by
  refine ⟨(0x005c0000 + rand % U32 % 0x7fa40000) &&& PAGE_FRAME, ?_, ?_, ?_, ?_, ?_⟩
  · unfold as_define_stack
    rw [if_neg hsp]
  · rw [Nat.mod_eq_of_lt hr, Nat.add_comm]
  · exact (land_page_frame_props _).1
  · have hx : 0x005c0000 + rand % U32 % 0x7fa40000 < U32 := by
      have h7 := Nat.mod_lt (rand % U32) (show 0 < 0x7fa40000 by decide)
      simp only [U32] at h7 ⊢
      omega
    rw [land_page_frame _ hx, show PAGE_SIZE = 4096 from rfl]
    omega
  · have hx : 0x005c0000 + rand % U32 % 0x7fa40000 < 0x80000000 := by
      have h7 := Nat.mod_lt (rand % U32) (show 0 < 0x7fa40000 by decide)
      omega
    have := (land_page_frame_props (0x005c0000 + rand % U32 % 0x7fa40000)).2.2
    omega

/-- Witness for C7 at `rand = 0xdeadbeef`, `stackpbase = 0x2a0000`. -/
theorem as_define_stack_spec_witness :
    (⟨0, 0, 0, 0, 0, 0, 0, 0x2a0000⟩ : addrspace).as_stackpbase ≠ 0 ∧
    (0xdeadbeef : Nat) < U32 ∧
    (∃ ptr,
      as_define_stack ⟨0, 0, 0, 0, 0, 0, 0, 0x2a0000⟩ 0xdeadbeef =
        some (0, { (⟨0, 0, 0, 0, 0, 0, 0, 0x2a0000⟩ : addrspace) with
          as_stackvbase := ptr }, ptr) ∧
      ptr = (0xdeadbeef % 0x7fa40000 + 0x005c0000) &&& PAGE_FRAME ∧
      ptr % PAGE_SIZE = 0 ∧ 0x005c0000 ≤ ptr ∧ ptr < 0x80000000) :=
  ⟨by decide, by decide,
    as_define_stack_spec ⟨0, 0, 0, 0, 0, 0, 0, 0x2a0000⟩ 0xdeadbeef
      (by decide) (by decide)⟩

/-! ### C1: out-of-memory behaviour of the allocator -/

/-- C1 (the code contradicts the claim): with a buddy list whose only
block is in use, an allocation of one page finds no fitting block;
`find_buddy` returns `-1`, `calculate_buddy` passes it unchecked to
`array_getguy`, an out-of-bounds access on which the kernel cannot
continue (modelled `none`) — `getppages` does not return 0 and does not
leave the buddy list unchanged. -/
theorem getppages_oom_crashes :
    getppages (fun _ => 0) ⟨true, [⟨0x200000, 4, true⟩]⟩ 1 = none := by
  decide

/-! ### C2: interrupt priority level across vm_fault -/

/-- C2 (amended): `vm_fault` raises the interrupt priority level on
entry and restores the caller's level on every returning exit path
except the no-address-space one: whenever it returns and either the
current thread has an address space or the result is `EINVAL`, the
level after the call equals the level before. -/
theorem vm_fault_spl_restored (ft fa : Nat) (as? : Option addrspace)
    (tlb : List (Nat × Nat)) (spl r : Nat) (tlb' : List (Nat × Nat)) (spl' : Nat)
    (h : vm_fault ft fa as? tlb spl = some (r, tlb', spl'))
    (hcase : as? ≠ none ∨ r = EINVAL) :
    spl' = spl := by
  cases as? with
  | none =>
    simp only [vm_fault] at h
    split at h
    · exact absurd h (by simp)
    · split at h
      · simp only [Option.some.injEq, Prod.mk.injEq] at h
        exact h.2.2.symm
      · simp only [Option.some.injEq, Prod.mk.injEq] at h
        rcases hcase with hne | hE
        · exact absurd rfl hne
        · rw [← h.1] at hE
          exact absurd hE (by decide)
  | some as =>
    simp only [vm_fault] at h
    split at h
    · exact absurd h (by simp)
    · split at h
      · simp only [Option.some.injEq, Prod.mk.injEq] at h
        exact h.2.2.symm
      · split at h
        · split at h
          · simp only [Option.some.injEq, Prod.mk.injEq] at h
            exact h.2.2.symm
          · split at h
            · split at h
              · simp only [Option.some.injEq, Prod.mk.injEq] at h
                exact h.2.2.symm
              · simp only [Option.some.injEq, Prod.mk.injEq] at h
                exact h.2.2.symm
            · exact absurd h (by simp)
        · exact absurd h (by simp)

/-- C2 counterexample: a READ fault with no current address space
returns `EFAULT` with the interrupt priority level left at `SPL_HIGH`,
not at the caller's level 0. -/
theorem vm_fault_spl_leak_example :
    vm_fault VM_FAULT_READ 0 none [(0, 0)] 0 = some (EFAULT, [(0, 0)], SPL_HIGH) ∧
      SPL_HIGH ≠ 0 := by
  exact ⟨rfl, by decide⟩

/-- Witness for the amended C2 on the `EINVAL` exit path. -/
theorem vm_fault_spl_restored_witness :
    vm_fault 9 0 none [(0, 0)] 5 = some (EINVAL, [(0, 0)], 5) ∧ (5 : Nat) = 5 :=
  ⟨rfl, vm_fault_spl_restored 9 0 none [(0, 0)] 5 EINVAL [(0, 0)] 5 rfl (Or.inr rfl)⟩

/-! ### The find_buddy scan: best fit, first occurrence on ties -/

theorem find_go_from_some (l : List buddy_entry) (n : Nat) :
    ∀ (i : Nat) (p : Nat × buddy_entry), (find_go l n i (some p)).isSome := by
  induction l with
  | nil =>
    intro i p
    simp [find_go]
  | cons be rest ih =>
    intro i p
    rcases p with ⟨c, cb⟩
    simp only [find_go]
    by_cases hf : be.inuse = false ∧ n ≤ be.pages
    · rw [if_pos hf]
      by_cases hlt : be.pages < cb.pages
      · rw [if_pos hlt]
        exact ih (i + 1) (i, be)
      · rw [if_neg hlt]
        exact ih (i + 1) (c, cb)
    · rw [if_neg hf]
      exact ih (i + 1) (c, cb)

theorem find_go_complete (l : List buddy_entry) (n : Nat) :
    ∀ i acc,
      (∃ k, ∃ _ : k < l.length, l[k].inuse = false ∧ n ≤ l[k].pages) →
      (find_go l n i acc).isSome := by
  induction l with
  | nil =>
    intro i acc h
    rcases h with ⟨k, hk, _⟩
    exact absurd hk (by simp)
  | cons be rest ih =>
    intro i acc h
    rcases acc with _ | ⟨c, cb⟩
    · simp only [find_go]
      by_cases hf : be.inuse = false ∧ n ≤ be.pages
      · rw [if_pos hf]
        exact find_go_from_some rest n (i + 1) (i, be)
      · rw [if_neg hf]
        apply ih
        rcases h with ⟨k, hk, hfree, hfit⟩
        match k with
        | 0 =>
          rw [List.getElem_cons_zero] at hfree hfit
          exact absurd ⟨hfree, hfit⟩ hf
        | k + 1 =>
          rw [List.getElem_cons_succ] at hfree hfit
          exact ⟨k, by simp at hk; omega, hfree, hfit⟩
    · simp only [find_go]
      by_cases hf : be.inuse = false ∧ n ≤ be.pages
      · rw [if_pos hf]
        by_cases hlt : be.pages < cb.pages
        · rw [if_pos hlt]
          exact find_go_from_some rest n (i + 1) (i, be)
        · rw [if_neg hlt]
          exact find_go_from_some rest n (i + 1) (c, cb)
      · rw [if_neg hf]
        exact find_go_from_some rest n (i + 1) (c, cb)

theorem find_go_cases (l : List buddy_entry) (n : Nat) :
    ∀ (i : Nat) (acc : Option (Nat × buddy_entry)) (j : Nat) (b : buddy_entry),
      find_go l n i acc = some (j, b) →
      acc = some (j, b) ∨
        ∃ k, ∃ _ : k < l.length, j = i + k ∧ b = l[k] ∧
          b.inuse = false ∧ n ≤ b.pages := by
  induction l with
  | nil =>
    intro i acc j b h
    exact Or.inl h
  | cons be rest ih =>
    intro i acc j b h
    have hstep :
        ∀ acc', find_go rest n (i + 1) acc' = some (j, b) →
          (acc' = some (i, be) ∧ be.inuse = false ∧ n ≤ be.pages) ∨ acc' = acc →
          acc = some (j, b) ∨
            ∃ k, ∃ _ : k < (be :: rest).length, j = i + k ∧ b = (be :: rest)[k] ∧
              b.inuse = false ∧ n ≤ b.pages := by
      intro acc' h' hform
      rcases ih (i + 1) acc' j b h' with hacc | ⟨k, hk, hjk, hb, hfree, hfit⟩
      · rcases hform with ⟨he, hfree, hfit⟩ | he
        · rw [he] at hacc
          have h2 := Option.some.inj hacc
          have hj : i = j := congrArg Prod.fst h2
          have hbb : be = b := congrArg Prod.snd h2
          refine Or.inr ⟨0, by simp, by omega, ?_, ?_, ?_⟩
          · rw [List.getElem_cons_zero, ← hbb]
          · rw [← hbb]; exact hfree
          · rw [← hbb]; exact hfit
        · rw [he] at hacc
          exact Or.inl hacc
      · refine Or.inr ⟨k + 1, by simp; omega, by omega, ?_, hfree, hfit⟩
        rw [List.getElem_cons_succ]
        exact hb
    rcases acc with _ | ⟨c, cb⟩
    · simp only [find_go] at h
      by_cases hf : be.inuse = false ∧ n ≤ be.pages
      · rw [if_pos hf] at h
        exact hstep _ h (Or.inl ⟨rfl, hf⟩)
      · rw [if_neg hf] at h
        exact hstep _ h (Or.inr rfl)
    · simp only [find_go] at h
      by_cases hf : be.inuse = false ∧ n ≤ be.pages
      · rw [if_pos hf] at h
        by_cases hlt : be.pages < cb.pages
        · rw [if_pos hlt] at h
          exact hstep _ h (Or.inl ⟨rfl, hf⟩)
        · rw [if_neg hlt] at h
          exact hstep _ h (Or.inr rfl)
      · rw [if_neg hf] at h
        exact hstep _ h (Or.inr rfl)

theorem find_go_min (l : List buddy_entry) (n : Nat) :
    ∀ (i : Nat) (acc : Option (Nat × buddy_entry)) (j : Nat) (b : buddy_entry),
      find_go l n i acc = some (j, b) →
      (∀ c cb, acc = some (c, cb) → b.pages ≤ cb.pages) ∧
      (∀ k, ∀ _ : k < l.length, l[k].inuse = false → n ≤ l[k].pages →
        b.pages ≤ l[k].pages) := by
  induction l with
  | nil =>
    intro i acc j b h
    refine ⟨?_, ?_⟩
    · intro c cb hacc
      rw [hacc] at h
      have h2 := Option.some.inj h
      have hcb : cb = b := congrArg Prod.snd h2
      rw [hcb]
    · intro k hk
      exact absurd hk (by simp)
  | cons be rest ih =>
    intro i acc j b h
    have hstep :
        ∀ acc', find_go rest n (i + 1) acc' = some (j, b) →
          (∀ c cb, acc' = some (c, cb) → b.pages ≤ cb.pages) ∧
          (∀ k, ∀ _ : k < rest.length, rest[k].inuse = false → n ≤ rest[k].pages →
            b.pages ≤ rest[k].pages) :=
      fun acc' h' => ih (i + 1) acc' j b h'
    have hsucc :
        (∀ c cb, acc = some (c, cb) → b.pages ≤ cb.pages) →
        (b.pages ≤ be.pages ∨ ¬(be.inuse = false ∧ n ≤ be.pages)) →
        (∀ k, ∀ _ : k < rest.length, rest[k].inuse = false → n ≤ rest[k].pages →
          b.pages ≤ rest[k].pages) →
        (∀ c cb, acc = some (c, cb) → b.pages ≤ cb.pages) ∧
        (∀ k, ∀ _ : k < (be :: rest).length, (be :: rest)[k].inuse = false →
          n ≤ (be :: rest)[k].pages → b.pages ≤ (be :: rest)[k].pages) := by
      intro hacc hhead hrest
      refine ⟨hacc, ?_⟩
      intro k hk hfree hfit
      match k with
      | 0 =>
        rw [List.getElem_cons_zero] at hfree hfit ⊢
        rcases hhead with h1 | h1
        · exact h1
        · exact absurd ⟨hfree, hfit⟩ h1
      | k + 1 =>
        rw [List.getElem_cons_succ] at hfree hfit ⊢
        exact hrest k (by simp at hk; omega) hfree hfit
    rcases acc with _ | ⟨c, cb⟩
    · simp only [find_go] at h
      by_cases hf : be.inuse = false ∧ n ≤ be.pages
      · rw [if_pos hf] at h
        rcases hstep _ h with ⟨ha, hr⟩
        exact hsucc (by intro c cb hc; exact absurd hc (by simp))
          (Or.inl (ha i be rfl)) hr
      · rw [if_neg hf] at h
        rcases hstep _ h with ⟨ha, hr⟩
        exact hsucc (by intro c cb hc; exact absurd hc (by simp)) (Or.inr hf) hr
    · simp only [find_go] at h
      by_cases hf : be.inuse = false ∧ n ≤ be.pages
      · rw [if_pos hf] at h
        by_cases hlt : be.pages < cb.pages
        · rw [if_pos hlt] at h
          rcases hstep _ h with ⟨ha, hr⟩
          have hbe := ha i be rfl
          refine hsucc ?_ (Or.inl hbe) hr
          intro c' cb' hc
          have : cb' = cb := by
            have := Option.some.inj hc
            exact (congrArg Prod.snd this).symm
          rw [this]
          omega
        · rw [if_neg hlt] at h
          rcases hstep _ h with ⟨ha, hr⟩
          have hcb := ha c cb rfl
          refine hsucc ?_ (Or.inl (by omega)) hr
          intro c' cb' hc
          have : cb' = cb := by
            have := Option.some.inj hc
            exact (congrArg Prod.snd this).symm
          rw [this]
          exact hcb
      · rw [if_neg hf] at h
        rcases hstep _ h with ⟨ha, hr⟩
        refine hsucc ha (Or.inr hf) hr

theorem find_go_first (l : List buddy_entry) (n : Nat) :
    ∀ (i : Nat) (acc : Option (Nat × buddy_entry)) (j : Nat) (b : buddy_entry),
      (∀ c cb, acc = some (c, cb) → c < i) →
      find_go l n i acc = some (j, b) →
      (∀ c cb, acc = some (c, cb) → (j, b) = (c, cb) ∨ b.pages < cb.pages) ∧
      (∀ k, ∀ _ : k < l.length, i + k < j → l[k].inuse = false →
        n ≤ l[k].pages → b.pages < l[k].pages) := by
  induction l with
  | nil =>
    intro i acc j b hpre h
    refine ⟨?_, ?_⟩
    · intro c cb hacc
      rw [hacc] at h
      exact Or.inl (Option.some.inj h).symm
    · intro k hk
      exact absurd hk (by simp)
  | cons be rest ih =>
    intro i acc j b hpre h
    have hassem :
        (∀ c cb, acc = some (c, cb) → (j, b) = (c, cb) ∨ b.pages < cb.pages) →
        (i < j → be.inuse = false → n ≤ be.pages → b.pages < be.pages) →
        (∀ k, ∀ _ : k < rest.length, (i + 1) + k < j → rest[k].inuse = false →
          n ≤ rest[k].pages → b.pages < rest[k].pages) →
        (∀ c cb, acc = some (c, cb) → (j, b) = (c, cb) ∨ b.pages < cb.pages) ∧
        (∀ k, ∀ _ : k < (be :: rest).length, i + k < j → (be :: rest)[k].inuse = false →
          n ≤ (be :: rest)[k].pages → b.pages < (be :: rest)[k].pages) := by
      intro hacc hhead hrest
      refine ⟨hacc, ?_⟩
      intro k hk hlt hfree hfit
      match k with
      | 0 =>
        rw [List.getElem_cons_zero] at hfree hfit ⊢
        exact hhead (by omega) hfree hfit
      | k + 1 =>
        rw [List.getElem_cons_succ] at hfree hfit ⊢
        exact hrest k (by simp at hk; omega) (by omega) hfree hfit
    rcases acc with _ | ⟨c, cb⟩
    · simp only [find_go] at h
      by_cases hf : be.inuse = false ∧ n ≤ be.pages
      · rw [if_pos hf] at h
        have hpre' : ∀ c cb, (some (i, be) : Option (Nat × buddy_entry)) = some (c, cb) → c < i + 1 := by
          intro c cb hc
          have : i = c := congrArg Prod.fst (Option.some.inj hc)
          omega
        rcases ih (i + 1) _ j b hpre' h with ⟨himp, hrest⟩
        refine hassem (by intro c cb hc; exact absurd hc (by simp)) ?_ hrest
        intro hij _ _
        rcases himp i be rfl with heq | hltp
        · have : j = i := congrArg Prod.fst heq
          omega
        · exact hltp
      · rw [if_neg hf] at h
        have hpre' : ∀ c cb, (none : Option (Nat × buddy_entry)) = some (c, cb) → c < i + 1 := by
          intro c cb hc
          exact absurd hc (by simp)
        rcases ih (i + 1) _ j b hpre' h with ⟨himp, hrest⟩
        refine hassem (by intro c cb hc; exact absurd hc (by simp)) ?_ hrest
        intro _ hfree hfit
        exact absurd ⟨hfree, hfit⟩ hf
    · simp only [find_go] at h
      by_cases hf : be.inuse = false ∧ n ≤ be.pages
      · rw [if_pos hf] at h
        by_cases hlt : be.pages < cb.pages
        · rw [if_pos hlt] at h
          have hpre' : ∀ c' cb', (some (i, be) : Option (Nat × buddy_entry)) = some (c', cb') → c' < i + 1 := by
            intro c' cb' hc
            have : i = c' := congrArg Prod.fst (Option.some.inj hc)
            omega
          rcases ih (i + 1) _ j b hpre' h with ⟨himp, hrest⟩
          have hbe : (j, b) = (i, be) ∨ b.pages < be.pages := himp i be rfl
          refine hassem ?_ ?_ hrest
          · intro c' cb' hc
            have hcb : cb' = cb := (congrArg Prod.snd (Option.some.inj hc)).symm
            rw [hcb]
            rcases hbe with heq | hltp
            · have hpg : b.pages = be.pages := by
                rw [show b = be from congrArg Prod.snd heq]
              exact Or.inr (by omega)
            · exact Or.inr (by omega)
          · intro hij _ _
            rcases hbe with heq | hltp
            · have : j = i := congrArg Prod.fst heq
              omega
            · exact hltp
        · rw [if_neg hlt] at h
          have hpre' : ∀ c' cb', (some (c, cb) : Option (Nat × buddy_entry)) = some (c', cb') → c' < i + 1 := by
            intro c' cb' hc
            have : c = c' := congrArg Prod.fst (Option.some.inj hc)
            have hci := hpre c cb rfl
            omega
          rcases ih (i + 1) _ j b hpre' h with ⟨himp, hrest⟩
          have hcb : (j, b) = (c, cb) ∨ b.pages < cb.pages := himp c cb rfl
          refine hassem ?_ ?_ hrest
          · intro c' cb' hc
            have h1 : c' = c := (congrArg Prod.fst (Option.some.inj hc)).symm
            have h2 : cb' = cb := (congrArg Prod.snd (Option.some.inj hc)).symm
            rw [h1, h2]
            exact hcb
          · intro hij _ _
            rcases hcb with heq | hltp
            · have : j = c := congrArg Prod.fst heq
              have := hpre c cb rfl
              omega
            · omega
      · rw [if_neg hf] at h
        have hpre' : ∀ c' cb', (some (c, cb) : Option (Nat × buddy_entry)) = some (c', cb') → c' < i + 1 := by
          intro c' cb' hc
          have : c = c' := congrArg Prod.fst (Option.some.inj hc)
          have := hpre c cb rfl
          omega
        rcases ih (i + 1) _ j b hpre' h with ⟨himp, hrest⟩
        refine hassem himp ?_ hrest
        intro _ hfree hfit
        exact absurd ⟨hfree, hfit⟩ hf

/-! ### C5: best-fit selection -/

/-- C5: whenever some free block of at least `n` pages exists, the block
selected by `find_buddy` is free, fits, has the smallest `pages` value
among all free blocks whose size is at least `n`, and among equally
small fitting blocks it is the first in the list. -/
theorem find_buddy_best_fit (l : List buddy_entry) (n : Nat)
    (hex : ∃ k, ∃ _ : k < l.length, l[k].inuse = false ∧ n ≤ l[k].pages) :
    ∃ i, ∃ _ : i < l.length,
      find_buddy l n = some i ∧
      l[i].inuse = false ∧ n ≤ l[i].pages ∧
      (∀ k, ∀ _ : k < l.length, l[k].inuse = false → n ≤ l[k].pages →
        l[i].pages ≤ l[k].pages) ∧
      (∀ k, ∀ _ : k < l.length, k < i → l[k].inuse = false → n ≤ l[k].pages →
        l[i].pages < l[k].pages) := by
  have hs := find_go_complete l n 0 none hex
  rcases hop : find_go l n 0 none with _ | ⟨j, b⟩
  · rw [hop] at hs
    simp at hs
  · rcases find_go_cases l n 0 none j b hop with habs | ⟨k, hk, hjk, hb, hfree, hfit⟩
    · exact absurd habs (by simp)
    · have hkj : k = j := by omega
      subst hkj
      rcases find_go_min l n 0 none k b hop with ⟨_, hmin⟩
      have hpre : ∀ c cb, (none : Option (Nat × buddy_entry)) = some (c, cb) → c < 0 := by
        intro c cb hc
        exact absurd hc (by simp)
      rcases find_go_first l n 0 none k b hpre hop with ⟨_, hstrict⟩
      refine ⟨k, hk, ?_, ?_, ?_, ?_, ?_⟩
      · rw [find_buddy, hop]
        rfl
      · rw [← hb]
        exact hfree
      · rw [← hb]
        exact hfit
      · intro m hm hmfree hmfit
        rw [← hb]
        exact hmin m hm hmfree hmfit
      · intro m hm hmk hmfree hmfit
        rw [← hb]
        exact hstrict m hm (by omega) hmfree hmfit

/-- Witness for C5: in `[(0x1000, 3 pages, in use), (0x4000, 2 pages, free)]`
with `n = 1` the scan selects index 1. -/
theorem find_buddy_best_fit_witness :
    (∃ k, ∃ _ : k <
        ([⟨0x1000, 3, true⟩, ⟨0x4000, 2, false⟩] : List buddy_entry).length,
      ([⟨0x1000, 3, true⟩, ⟨0x4000, 2, false⟩] : List buddy_entry)[k].inuse = false ∧
        1 ≤ ([⟨0x1000, 3, true⟩, ⟨0x4000, 2, false⟩] : List buddy_entry)[k].pages) ∧
    (∃ i, ∃ _ : i <
        ([⟨0x1000, 3, true⟩, ⟨0x4000, 2, false⟩] : List buddy_entry).length,
      find_buddy [⟨0x1000, 3, true⟩, ⟨0x4000, 2, false⟩] 1 = some i ∧
      ([⟨0x1000, 3, true⟩, ⟨0x4000, 2, false⟩] : List buddy_entry)[i].inuse = false ∧
      1 ≤ ([⟨0x1000, 3, true⟩, ⟨0x4000, 2, false⟩] : List buddy_entry)[i].pages ∧
      (∀ k, ∀ _ : k <
          ([⟨0x1000, 3, true⟩, ⟨0x4000, 2, false⟩] : List buddy_entry).length,
        ([⟨0x1000, 3, true⟩, ⟨0x4000, 2, false⟩] : List buddy_entry)[k].inuse = false →
        1 ≤ ([⟨0x1000, 3, true⟩, ⟨0x4000, 2, false⟩] : List buddy_entry)[k].pages →
        ([⟨0x1000, 3, true⟩, ⟨0x4000, 2, false⟩] : List buddy_entry)[i].pages ≤
          ([⟨0x1000, 3, true⟩, ⟨0x4000, 2, false⟩] : List buddy_entry)[k].pages) ∧
      (∀ k, ∀ _ : k <
          ([⟨0x1000, 3, true⟩, ⟨0x4000, 2, false⟩] : List buddy_entry).length,
        k < i →
        ([⟨0x1000, 3, true⟩, ⟨0x4000, 2, false⟩] : List buddy_entry)[k].inuse = false →
        1 ≤ ([⟨0x1000, 3, true⟩, ⟨0x4000, 2, false⟩] : List buddy_entry)[k].pages →
        ([⟨0x1000, 3, true⟩, ⟨0x4000, 2, false⟩] : List buddy_entry)[i].pages <
          ([⟨0x1000, 3, true⟩, ⟨0x4000, 2, false⟩] : List buddy_entry)[k].pages)) :=
  ⟨⟨1, by decide, by decide⟩,
    find_buddy_best_fit [⟨0x1000, 3, true⟩, ⟨0x4000, 2, false⟩] 1
      ⟨1, by decide, by decide⟩⟩

/-! ### Preservation of the buddy invariant by splits, marks and frees -/

theorem splitlist_get_other (l : List buddy_entry) (i : Nat) (x y : buddy_entry)
    (j : Nat) (hj : j < l.length) (hne : j ≠ i) :
    ∀ _ : j < ((l.set i x) ++ [y]).length, ((l.set i x) ++ [y])[j] = l[j] := by
  intro hj2
  rw [List.getElem_append_left (show j < (l.set i x).length by simp [hj])]
  rw [List.getElem_set_ne (show i ≠ j by omega)]

theorem splitlist_get_self (l : List buddy_entry) (i : Nat) (x y : buddy_entry)
    (hi : i < l.length) :
    ∀ _ : i < ((l.set i x) ++ [y]).length, ((l.set i x) ++ [y])[i] = x := by
  intro hj2
  rw [List.getElem_append_left (show i < (l.set i x).length by simp [hi])]
  exact List.getElem_set_self _

theorem splitlist_get_last (l : List buddy_entry) (i : Nat) (x y : buddy_entry) :
    ∀ _ : l.length < ((l.set i x) ++ [y]).length, ((l.set i x) ++ [y])[l.length] = y := by
  intro hj2
  rw [List.getElem_append_right (show (l.set i x).length ≤ l.length by simp)]
  simp

theorem buddyInv_split_step (lo hi : Nat) (l : List buddy_entry) (i : Nat)
    (hil : i < l.length) (p s : Nat) (u : Bool) (s1 : Nat)
    (hinv : buddyInv lo hi l) (hget : l[i] = ⟨p, s, u⟩)
    (h1 : 1 ≤ s1) (hs : s1 < s) :
    buddyInv lo hi
      ((l.set i ⟨p, s1, false⟩) ++ [⟨p + s1 * PAGE_SIZE, s - s1, false⟩]) := by
  have hother := splitlist_get_other l i ⟨p, s1, false⟩ ⟨p + s1 * PAGE_SIZE, s - s1, false⟩
  have hself := splitlist_get_self l i ⟨p, s1, false⟩ ⟨p + s1 * PAGE_SIZE, s - s1, false⟩ hil
  have hlast := splitlist_get_last l i ⟨p, s1, false⟩ ⟨p + s1 * PAGE_SIZE, s - s1, false⟩
  have hlen : ((l.set i (⟨p, s1, false⟩ : buddy_entry)) ++
      [(⟨p + s1 * PAGE_SIZE, s - s1, false⟩ : buddy_entry)]).length
      = l.length + 1 := by simp
  refine ⟨?_, ?_, ?_, ?_⟩
  · intro a
    rw [← hinv.cover_iff a]
    constructor
    · rintro ⟨j, hj, hb⟩
      have hj' : j < l.length + 1 := by rw [← hlen]; exact hj
      by_cases hjl : j < l.length
      · by_cases hji : j = i
        · subst hji
          rw [hself hj] at hb
          refine ⟨j, hjl, ?_⟩
          rw [hget]
          simp only [bmem, PAGE_SIZE] at hb ⊢
          omega
        · rw [hother j hjl hji hj] at hb
          exact ⟨j, hjl, hb⟩
      · have hje : j = l.length := by omega
        subst hje
        rw [hlast hj] at hb
        refine ⟨i, hil, ?_⟩
        rw [hget]
        simp only [bmem, PAGE_SIZE] at hb ⊢
        omega
    · rintro ⟨j, hj, hb⟩
      by_cases hji : j = i
      · subst hji
        rw [hget] at hb
        simp only [bmem, PAGE_SIZE] at hb
        by_cases hside : a < p + s1 * 4096
        · refine ⟨j, by omega, ?_⟩
          rw [hself (by omega)]
          simp only [bmem, PAGE_SIZE]
          omega
        · refine ⟨l.length, by omega, ?_⟩
          rw [hlast (by omega)]
          simp only [bmem, PAGE_SIZE]
          omega
      · refine ⟨j, by omega, ?_⟩
        rw [hother j hj hji (by omega)]
        exact hb
  · intro j k hj hk hne
    have hj' : j < l.length + 1 := by rw [← hlen]; exact hj
    have hk' : k < l.length + 1 := by rw [← hlen]; exact hk
    have hget_pp : l[i].paddr = p ∧ l[i].pages = s := by rw [hget]; exact ⟨rfl, rfl⟩
    by_cases hjl : j < l.length
    · by_cases hkl : k < l.length
      · by_cases hji : j = i
        · subst hji
          by_cases hki : k = j
          · omega
          · rw [hself hj, hother k hkl hki hk]
            have hd := hinv.disj j k hjl hkl hne
            rw [hget] at hd
            simp only [PAGE_SIZE] at hd ⊢
            omega
        · by_cases hki : k = i
          · subst hki
            rw [hself hk, hother j hjl hji hj]
            have hd := hinv.disj j k hjl hkl hne
            rw [hget] at hd
            simp only [PAGE_SIZE] at hd ⊢
            omega
          · rw [hother j hjl hji hj, hother k hkl hki hk]
            have hd := hinv.disj j k hjl hkl hne
            simp only [PAGE_SIZE] at hd ⊢
            omega
      · have hke : k = l.length := by omega
        subst hke
        rw [hlast hk]
        by_cases hji : j = i
        · subst hji
          rw [hself hj]
          simp only [PAGE_SIZE]
          omega
        · rw [hother j hjl hji hj]
          have hd := hinv.disj j i hjl hil hji
          rw [hget] at hd
          simp only [PAGE_SIZE] at hd ⊢
          omega
    · have hje : j = l.length := by omega
      subst hje
      rw [hlast hj]
      have hkl : k < l.length := by omega
      by_cases hki : k = i
      · subst hki
        rw [hself hk]
        simp only [PAGE_SIZE]
        omega
      · rw [hother k hkl hki hk]
        have hd := hinv.disj k i hkl hil hki
        rw [hget] at hd
        simp only [PAGE_SIZE] at hd ⊢
        omega
  · intro j hj
    have hj' : j < l.length + 1 := by rw [← hlen]; exact hj
    by_cases hjl : j < l.length
    · by_cases hji : j = i
      · subst hji
        rw [hself hj]
        show 0 < s1
        omega
      · rw [hother j hjl hji hj]
        exact hinv.pos j hjl
    · have hje : j = l.length := by omega
      subst hje
      rw [hlast hj]
      show 0 < s - s1
      omega
  · intro j hj
    have hj' : j < l.length + 1 := by rw [← hlen]; exact hj
    have hali := hinv.aligned i hil
    rw [hget] at hali
    by_cases hjl : j < l.length
    · by_cases hji : j = i
      · subst hji
        rw [hself hj]
        exact hali
      · rw [hother j hjl hji hj]
        exact hinv.aligned j hjl
    · have hje : j = l.length := by omega
      subst hje
      rw [hlast hj]
      show (p + s1 * PAGE_SIZE) % PAGE_SIZE = 0
      simp only [PAGE_SIZE] at hali ⊢
      omega

theorem split_go_spec (lo hi npages : Nat) (hn : 1 ≤ npages) :
    ∀ (nextsize oldsize : Nat) (l : List buddy_entry) (buddyi p : Nat) (u : Bool)
      (l' : List buddy_entry),
      buddyInv lo hi l →
      ∀ _ : buddyi < l.length,
      l[buddyi] = ⟨p, oldsize, u⟩ →
      npages ≤ oldsize →
      nextsize = oldsize / 2 →
      split_go l buddyi p oldsize nextsize npages = some l' →
      buddyInv lo hi l' ∧
      l.length ≤ l'.length ∧
      buddyi < l'.length ∧
      (∃ m u2, npages ≤ m ∧ m ≤ oldsize ∧
        (∀ _ : buddyi < l'.length, l'[buddyi] = ⟨p, m, u2⟩)) ∧
      (∀ j, ∀ _ : j < l.length, j ≠ buddyi →
        ∀ _ : j < l'.length, l'[j] = l[j]) ∧
      (∀ j, ∀ _ : j < l'.length, l.length ≤ j → l'[j].inuse = false) := by
  intro nextsize
  induction nextsize using Nat.strong_induction_on with
  | _ nextsize ih =>
    intro oldsize l buddyi p u l' hinv hbl hget hno hns hsplit
    rw [split_go] at hsplit
    by_cases hcond : npages ≤ nextsize
    · rw [if_pos hcond] at hsplit
      have hnz : ¬(nextsize = 0) := by omega
      rw [dif_neg hnz] at hsplit
      have hlt : nextsize / 2 < nextsize := Nat.div_lt_self (by omega) (by omega)
      have hs1 : nextsize < oldsize := by omega
      have hinv2 := buddyInv_split_step lo hi l buddyi hbl p oldsize u nextsize
        hinv hget (by omega) hs1
      have hlen2 : ((l.set buddyi (⟨p, nextsize, false⟩ : buddy_entry)) ++
          [(⟨p + nextsize * PAGE_SIZE, oldsize - nextsize, false⟩ : buddy_entry)]).length
          = l.length + 1 := by simp
      have hb2 : buddyi < ((l.set buddyi (⟨p, nextsize, false⟩ : buddy_entry)) ++
          [(⟨p + nextsize * PAGE_SIZE, oldsize - nextsize, false⟩ : buddy_entry)]).length := by
        rw [hlen2]
        omega
      have hget2 := splitlist_get_self l buddyi (⟨p, nextsize, false⟩ : buddy_entry)
        (⟨p + nextsize * PAGE_SIZE, oldsize - nextsize, false⟩ : buddy_entry) hbl hb2
      have hres := ih (nextsize / 2) hlt nextsize _ buddyi p false l'
        hinv2 hb2 hget2 hcond rfl hsplit
      rcases hres with ⟨hinv', hlen', hbi', ⟨m, u2, hm1, hm2, hgot⟩, hpres2, happ2⟩
      rw [hlen2] at hlen'
      refine ⟨hinv', by omega, hbi', ⟨m, u2, hm1, by omega, hgot⟩, ?_, ?_⟩
      · intro j hj hne hj'
        have hjlen2 : j < ((l.set buddyi (⟨p, nextsize, false⟩ : buddy_entry)) ++
            [(⟨p + nextsize * PAGE_SIZE, oldsize - nextsize, false⟩ : buddy_entry)]).length := by
          rw [hlen2]
          omega
        rw [hpres2 j hjlen2 hne hj']
        exact splitlist_get_other l buddyi _ _ j hj hne hjlen2
      · intro j hj' hjge
        by_cases hje : j = l.length
        · subst hje
          have hjlen2 : l.length < ((l.set buddyi (⟨p, nextsize, false⟩ : buddy_entry)) ++
              [(⟨p + nextsize * PAGE_SIZE, oldsize - nextsize, false⟩ : buddy_entry)]).length := by
            rw [hlen2]
            omega
          have hne : l.length ≠ buddyi := by omega
          rw [hpres2 l.length hjlen2 hne hj']
          rw [splitlist_get_last l buddyi _ _ hjlen2]
        · apply happ2 j hj'
          rw [hlen2]
          omega
    · rw [if_neg hcond] at hsplit
      have hl : l = l' := Option.some.inj hsplit
      subst hl
      refine ⟨hinv, le_refl _, hbl, ⟨oldsize, u, hno, le_refl _, ?_⟩, ?_, ?_⟩
      · intro hb'
        exact hget
      · intro j hj hne hj'
        rfl
      · intro j hj' hjge
        omega

theorem buddyInv_congr (lo hi : Nat) (l l2 : List buddy_entry)
    (hlen : l2.length = l.length)
    (hpp : ∀ j, ∀ _ : j < l.length, ∀ _ : j < l2.length,
      l2[j].paddr = l[j].paddr ∧ l2[j].pages = l[j].pages)
    (hinv : buddyInv lo hi l) : buddyInv lo hi l2 := by
  refine ⟨?_, ?_, ?_, ?_⟩
  · intro a
    rw [← hinv.cover_iff a]
    constructor
    · rintro ⟨j, hj, hb⟩
      have hjl : j < l.length := by omega
      refine ⟨j, hjl, ?_⟩
      rcases hpp j hjl hj with ⟨h1, h2⟩
      simp only [bmem] at hb ⊢
      rw [h1, h2] at hb
      exact hb
    · rintro ⟨j, hj, hb⟩
      have hjl : j < l2.length := by omega
      refine ⟨j, hjl, ?_⟩
      rcases hpp j hj hjl with ⟨h1, h2⟩
      simp only [bmem] at hb ⊢
      rw [h1, h2]
      exact hb
  · intro i j hi hj hne
    have hil : i < l.length := by omega
    have hjl : j < l.length := by omega
    rcases hpp i hil hi with ⟨h1, h2⟩
    rcases hpp j hjl hj with ⟨h3, h4⟩
    rw [h1, h2, h3, h4]
    exact hinv.disj i j hil hjl hne
  · intro j hj
    have hjl : j < l.length := by omega
    rcases hpp j hjl hj with ⟨_, h2⟩
    rw [h2]
    exact hinv.pos j hjl
  · intro j hj
    have hjl : j < l.length := by omega
    rcases hpp j hjl hj with ⟨h1, _⟩
    rw [h1]
    exact hinv.aligned j hjl

theorem mark_inuse_length (l : List buddy_entry) (i : Nat) :
    (mark_inuse l i).length = l.length := by
  unfold mark_inuse
  by_cases h : i < l.length
  · rw [List.getElem?_eq_getElem h]
    simp
  · rw [List.getElem?_eq_none (by omega)]

theorem mark_inuse_get_self (l : List buddy_entry) (i : Nat) (h : i < l.length) :
    ∀ _ : i < (mark_inuse l i).length,
      (mark_inuse l i)[i] = ⟨l[i].paddr, l[i].pages, true⟩ := by
  intro h2
  simp only [mark_inuse, List.getElem?_eq_getElem h]
  simp

theorem mark_inuse_get_other (l : List buddy_entry) (i j : Nat) (hj : j < l.length)
    (hne : j ≠ i) :
    ∀ _ : j < (mark_inuse l i).length, (mark_inuse l i)[j] = l[j] := by
  intro h2
  by_cases h : i < l.length
  · simp only [mark_inuse, List.getElem?_eq_getElem h]
    rw [List.getElem_set_ne (show i ≠ j by omega)]
  · simp only [mark_inuse, List.getElem?_eq_none (show l.length ≤ i by omega)]

theorem mark_inuse_geometry (l : List buddy_entry) (i : Nat) :
    ∀ j, ∀ _ : j < l.length, ∀ _ : j < (mark_inuse l i).length,
      (mark_inuse l i)[j].paddr = l[j].paddr ∧
        (mark_inuse l i)[j].pages = l[j].pages := by
  intro j hj h2
  by_cases hji : j = i
  · subst hji
    rw [mark_inuse_get_self l j hj h2]
    exact ⟨rfl, rfl⟩
  · rw [mark_inuse_get_other l i j hj hji h2]
    exact ⟨rfl, rfl⟩

theorem buddyInv_mark_inuse (lo hi : Nat) (l : List buddy_entry) (i : Nat)
    (hinv : buddyInv lo hi l) : buddyInv lo hi (mark_inuse l i) :=
  buddyInv_congr lo hi l (mark_inuse l i) (mark_inuse_length l i)
    (mark_inuse_geometry l i) hinv

theorem freeppage_length (addr : Nat) : ∀ (l : List buddy_entry),
    (freeppage l addr).length = l.length := by
  intro l
  induction l with
  | nil => rfl
  | cons be rest ih =>
    by_cases h : be.paddr = addr
    · simp [freeppage, if_pos h]
    · simp only [freeppage, if_neg h, List.length_cons, ih]

theorem freeppage_geometry (addr : Nat) : ∀ (l : List buddy_entry),
    ∀ j, ∀ _ : j < l.length, ∀ _ : j < (freeppage l addr).length,
      (freeppage l addr)[j].paddr = l[j].paddr ∧
        (freeppage l addr)[j].pages = l[j].pages := by
  intro l
  induction l with
  | nil =>
    intro j hj
    exact absurd hj (by simp)
  | cons be rest ih =>
    intro j hj hj2
    by_cases h : be.paddr = addr
    · simp only [freeppage, if_pos h] at hj2 ⊢
      match j with
      | 0 => simp
      | j + 1 => simp
    · simp only [freeppage, if_neg h] at hj2 ⊢
      match j with
      | 0 => simp
      | j + 1 =>
        simp only [List.getElem_cons_succ]
        exact ih j (by simp at hj; omega) (by simp at hj2; omega)

theorem buddyInv_freeppage (lo hi : Nat) (l : List buddy_entry) (addr : Nat)
    (hinv : buddyInv lo hi l) : buddyInv lo hi (freeppage l addr) :=
  buddyInv_congr lo hi l (freeppage l addr) (freeppage_length addr l)
    (freeppage_geometry addr l) hinv

theorem calculate_buddy_spec (lo hi : Nat) (l : List buddy_entry) (n : Nat)
    (hn : 1 ≤ n) (hinv : buddyInv lo hi l) (a : Nat) (l' : List buddy_entry)
    (hcalc : calculate_buddy l n = some (a, l')) :
    buddyInv lo hi l' ∧
    l.length ≤ l'.length ∧
    ∃ bi, ∃ _ : bi < l.length, ∃ _ : bi < l'.length, ∃ m,
      l[bi].inuse = false ∧ n ≤ l[bi].pages ∧ a = l[bi].paddr ∧
      n ≤ m ∧ m ≤ l[bi].pages ∧
      (∀ _ : bi < l'.length, l'[bi] = ⟨a, m, true⟩) ∧
      (∀ j, ∀ _ : j < l.length, j ≠ bi → ∀ _ : j < l'.length, l'[j] = l[j]) ∧
      (∀ j, ∀ _ : j < l'.length, l.length ≤ j → l'[j].inuse = false) := by
  unfold calculate_buddy at hcalc
  rcases hfb : find_buddy l n with _ | buddyi
  · rw [hfb] at hcalc
    exact absurd hcalc (by simp)
  · rw [hfb] at hcalc
    dsimp only at hcalc
    have hmap : ∃ b, find_go l n 0 none = some (buddyi, b) := by
      unfold find_buddy at hfb
      rcases hgo : find_go l n 0 none with _ | ⟨j, b⟩
      · rw [hgo] at hfb
        exact absurd hfb (by simp)
      · rw [hgo] at hfb
        simp only [Option.map_some', Option.some.injEq] at hfb
        exact ⟨b, by rw [← hfb]⟩
    rcases hmap with ⟨b, hgo⟩
    rcases find_go_cases l n 0 none buddyi b hgo with habs | ⟨k, hk, hjk, hb, hfree, hfit⟩
    · exact absurd habs (by simp)
    · have hkb : k = buddyi := by omega
      subst hkb
      rw [List.getElem?_eq_getElem hk] at hcalc
      dsimp only at hcalc
      rcases hsp : split_go l k l[k].paddr l[k].pages (l[k].pages / 2) n
        with _ | l2
      · rw [hsp] at hcalc
        exact absurd hcalc (by simp)
      · rw [hsp] at hcalc
        dsimp only at hcalc
        simp only [Option.some.injEq, Prod.mk.injEq] at hcalc
        rcases hcalc with ⟨ha, hl'⟩
        subst hl'
        subst ha
        have hgetk : l[k] = ⟨l[k].paddr, l[k].pages, l[k].inuse⟩ := rfl
        have hres := split_go_spec lo hi n hn (l[k].pages / 2) l[k].pages l k
          l[k].paddr l[k].inuse l2 hinv hk hgetk (by rw [← hb]; exact hfit) rfl hsp
        rcases hres with ⟨hinv2, hlen2, hk2, ⟨m, u2, hm1, hm2, hgot⟩, hpres2, happ2⟩
        have hlenm : (mark_inuse l2 k).length = l2.length := mark_inuse_length l2 k
        have hfree' : l[k].inuse = false := by rw [← hb]; exact hfree
        have hfit' : n ≤ l[k].pages := by rw [← hb]; exact hfit
        refine ⟨?_, ?_, k, hk, ?_, m, hfree', hfit', rfl, hm1, hm2, ?_, ?_, ?_⟩
        · exact buddyInv_mark_inuse lo hi l2 k hinv2
        · rw [hlenm]
          omega
        · rw [hlenm]
          omega
        · intro hbl'
          have hbl2 : k < l2.length := by omega
          rw [mark_inuse_get_self l2 k hbl2 hbl', hgot hbl2]
        · intro j hj hne hj'
          have hjl2 : j < l2.length := by omega
          rw [mark_inuse_get_other l2 k j hjl2 hne hj']
          exact hpres2 j hj hne hjl2
        · intro j hj' hjge
          have hjl2 : j < l2.length := by omega
          have hne : j ≠ k := by omega
          rw [mark_inuse_get_other l2 k j hjl2 hne hj']
          exact happ2 j hjl2 hjge

theorem vm_reach_inv (lo hi : Nat) (hlo : lo % PAGE_SIZE = 0)
    (hdvd : (hi - lo) % PAGE_SIZE = 0) (hsz : lo + PAGE_SIZE ≤ hi)
    (l : List buddy_entry) (hre : vm_reach lo hi l) : buddyInv lo hi l := by
  induction hre with
  | boot =>
    refine ⟨?_, ?_, ?_, ?_⟩
    · intro a
      constructor
      · rintro ⟨i, hi1, hb⟩
        have hi0 : i = 0 := by
          simp only [vm_bootstrap_list, List.length_singleton] at hi1
          omega
        subst hi0
        simp only [vm_bootstrap_list, List.getElem_cons_zero, bmem, PAGE_SIZE] at hb
        simp only [PAGE_SIZE] at hdvd hsz
        omega
      · intro ha
        refine ⟨0, by simp [vm_bootstrap_list], ?_⟩
        simp only [vm_bootstrap_list, List.getElem_cons_zero, bmem, PAGE_SIZE]
        simp only [PAGE_SIZE] at hdvd hsz
        omega
    · intro i j hi1 hj1 hne
      simp only [vm_bootstrap_list, List.length_singleton] at hi1 hj1
      omega
    · intro i hi1
      have hi0 : i = 0 := by
        simp only [vm_bootstrap_list, List.length_singleton] at hi1
        omega
      subst hi0
      simp only [vm_bootstrap_list, List.getElem_cons_zero, PAGE_SIZE]
      simp only [PAGE_SIZE] at hdvd hsz
      omega
    · intro i hi1
      have hi0 : i = 0 := by
        simp only [vm_bootstrap_list, List.length_singleton] at hi1
        omega
      subst hi0
      simp only [vm_bootstrap_list, List.getElem_cons_zero]
      exact hlo
  | alloc hre1 hn hcalc ih =>
    exact (calculate_buddy_spec lo hi _ _ hn ih _ _ hcalc).1
  | free hre1 ih =>
    exact buddyInv_freeppage lo hi _ _ ih

/-! ### C4: exact coverage with no overlap, at every reachable state -/

/-- C4: at every state reachable from bootstrap by allocations and
frees, the union of `[paddr, paddr + pages*PAGE_SIZE)` over the buddy
blocks equals the initial RAM range `[lo, hi)` exactly, and no two
blocks overlap.  The hypotheses are the RAM probe contract: `lo` is
page-aligned, the range is a whole number of pages, and there is at
least one page of RAM. -/
theorem buddy_cover_invariant (lo hi : Nat) (l : List buddy_entry)
    (hlo : lo % PAGE_SIZE = 0) (hdvd : (hi - lo) % PAGE_SIZE = 0)
    (hsz : lo + PAGE_SIZE ≤ hi) (hre : vm_reach lo hi l) :
    cover l = Set.Ico lo hi ∧
    (∀ i j, ∀ _ : i < l.length, ∀ _ : j < l.length, i ≠ j →
      Disjoint (bset l[i]) (bset l[j])) := by
  have hinv := vm_reach_inv lo hi hlo hdvd hsz l hre
  constructor
  · ext a
    simp only [cover, Set.mem_setOf_eq, Set.mem_Ico]
    exact hinv.cover_iff a
  · intro i j hi1 hj1 hne
    rw [Set.disjoint_left]
    intro a ha hb
    simp only [bset, Set.mem_Ico] at ha hb
    have hd := hinv.disj i j hi1 hj1 hne
    omega

/-- Witness for C4: boot on RAM `[0x1000, 0x4000)`, allocate one page,
free it again; the invariant holds at the resulting state. -/
theorem buddy_cover_invariant_witness :
    (0x1000 : Nat) % PAGE_SIZE = 0 ∧ ((0x4000 : Nat) - 0x1000) % PAGE_SIZE = 0 ∧
    (0x1000 : Nat) + PAGE_SIZE ≤ 0x4000 ∧
    vm_reach 0x1000 0x4000 [⟨0x1000, 1, false⟩, ⟨0x2000, 2, false⟩] ∧
    (cover [⟨0x1000, 1, false⟩, ⟨0x2000, 2, false⟩] = Set.Ico 0x1000 0x4000 ∧
      (∀ i j, ∀ _ : i <
          ([⟨0x1000, 1, false⟩, ⟨0x2000, 2, false⟩] : List buddy_entry).length,
        ∀ _ : j <
          ([⟨0x1000, 1, false⟩, ⟨0x2000, 2, false⟩] : List buddy_entry).length,
        i ≠ j →
        Disjoint (bset ([⟨0x1000, 1, false⟩, ⟨0x2000, 2, false⟩] : List buddy_entry)[i])
          (bset ([⟨0x1000, 1, false⟩, ⟨0x2000, 2, false⟩] : List buddy_entry)[j]))) := by
  have hcalc : calculate_buddy (vm_bootstrap_list 0x1000 0x4000) 1 =
      some (0x1000, [⟨0x1000, 1, true⟩, ⟨0x2000, 2, false⟩]) := by
    simp [vm_bootstrap_list, calculate_buddy, find_buddy, find_go, split_go,
      mark_inuse, PAGE_SIZE]
  have hfree : freeppage [⟨0x1000, 1, true⟩, ⟨0x2000, 2, false⟩] 0x1000 =
      [⟨0x1000, 1, false⟩, ⟨0x2000, 2, false⟩] := by
    simp [freeppage]
  have hre : vm_reach 0x1000 0x4000 [⟨0x1000, 1, false⟩, ⟨0x2000, 2, false⟩] := by
    rw [← hfree]
    exact vm_reach.free (vm_reach.alloc vm_reach.boot (by omega) hcalc)
  exact ⟨by decide, by decide, by decide, hre,
    buddy_cover_invariant 0x1000 0x4000 _ (by decide) (by decide) (by decide) hre⟩

/-! ### C8: block bases are pairwise distinct -/

/-- C8: at every state reachable from bootstrap, no two blocks in the
buddy list have the same `paddr`, so the linear scan of `freeppage`
matches at most one block. -/
theorem buddy_paddr_distinct (lo hi : Nat) (l : List buddy_entry)
    (hlo : lo % PAGE_SIZE = 0) (hdvd : (hi - lo) % PAGE_SIZE = 0)
    (hsz : lo + PAGE_SIZE ≤ hi) (hre : vm_reach lo hi l) :
    ∀ i j, ∀ _ : i < l.length, ∀ _ : j < l.length, i ≠ j →
      l[i].paddr ≠ l[j].paddr := by
  have hinv := vm_reach_inv lo hi hlo hdvd hsz l hre
  intro i j hi1 hj1 hne heq
  have hd := hinv.disj i j hi1 hj1 hne
  have hpi := hinv.pos i hi1
  have hpj := hinv.pos j hj1
  simp only [PAGE_SIZE] at hd
  omega

/-- Witness for C8 at the state of the C4 witness reached differently:
boot on `[0x1000, 0x4000)` and allocate one page. -/
theorem buddy_paddr_distinct_witness :
    (0x1000 : Nat) % PAGE_SIZE = 0 ∧ ((0x4000 : Nat) - 0x1000) % PAGE_SIZE = 0 ∧
    (0x1000 : Nat) + PAGE_SIZE ≤ 0x4000 ∧
    vm_reach 0x1000 0x4000 [⟨0x1000, 1, true⟩, ⟨0x2000, 2, false⟩] ∧
    (∀ i j, ∀ _ : i <
        ([⟨0x1000, 1, true⟩, ⟨0x2000, 2, false⟩] : List buddy_entry).length,
      ∀ _ : j <
        ([⟨0x1000, 1, true⟩, ⟨0x2000, 2, false⟩] : List buddy_entry).length,
      i ≠ j →
      ([⟨0x1000, 1, true⟩, ⟨0x2000, 2, false⟩] : List buddy_entry)[i].paddr ≠
        ([⟨0x1000, 1, true⟩, ⟨0x2000, 2, false⟩] : List buddy_entry)[j].paddr) := by
  have hcalc : calculate_buddy (vm_bootstrap_list 0x1000 0x4000) 1 =
      some (0x1000, [⟨0x1000, 1, true⟩, ⟨0x2000, 2, false⟩]) := by
    simp [vm_bootstrap_list, calculate_buddy, find_buddy, find_go, split_go,
      mark_inuse, PAGE_SIZE]
  have hre : vm_reach 0x1000 0x4000 [⟨0x1000, 1, true⟩, ⟨0x2000, 2, false⟩] :=
    vm_reach.alloc vm_reach.boot (by omega) hcalc
  exact ⟨by decide, by decide, by decide, hre,
    buddy_paddr_distinct 0x1000 0x4000 _ (by decide) (by decide) (by decide) hre⟩

theorem getppages_init_some (steal : Nat → Nat) (st : vm_state) (n a : Nat)
    (st' : vm_state) (hvi : st.vm_initialized = true)
    (h : getppages steal st n = some (a, st')) :
    calculate_buddy st.buddylist n = some (a, st'.buddylist) ∧
      st'.vm_initialized = true := by
  unfold getppages at h
  rw [hvi] at h
  rw [if_pos rfl] at h
  rcases hc : calculate_buddy st.buddylist n with _ | ⟨a1, l1⟩
  · rw [hc] at h
    exact absurd h (by simp)
  · rw [hc] at h
    dsimp only at h
    simp only [Option.some.injEq, Prod.mk.injEq] at h
    rcases h with ⟨h1, h2⟩
    subst h1
    rw [← h2]
    exact ⟨rfl, rfl⟩

/-! ### C6: as_prepare_load reserves three disjoint aligned ranges -/

/-- C6: for every address space with positive `npages1` and `npages2`
and zero physical bases, if `as_prepare_load` succeeds (returns 0) then
the three physical bases are nonzero and page-aligned and the three
reserved ranges are pairwise disjoint.  The buddy list is assumed to
satisfy the allocator invariant over a RAM range starting above 0. -/
theorem as_prepare_load_spec (steal : Nat → Nat) (st : vm_state) (as : addrspace)
    (lo hi r : Nat) (as' : addrspace) (st' : vm_state)
    (hvi : st.vm_initialized = true)
    (hinv : buddyInv lo hi st.buddylist)
    (hlo : 0 < lo)
    (hn1 : 1 ≤ as.as_npages1) (hn2 : 1 ≤ as.as_npages2)
    (hpl : as_prepare_load steal st as = some (r, as', st'))
    (hr : r = 0) :
    (as'.as_pbase1 ≠ 0 ∧ as'.as_pbase1 % PAGE_SIZE = 0) ∧
    (as'.as_pbase2 ≠ 0 ∧ as'.as_pbase2 % PAGE_SIZE = 0) ∧
    (as'.as_stackpbase ≠ 0 ∧ as'.as_stackpbase % PAGE_SIZE = 0) ∧
    Disjoint (Set.Ico as'.as_pbase1 (as'.as_pbase1 + as.as_npages1 * PAGE_SIZE))
      (Set.Ico as'.as_pbase2 (as'.as_pbase2 + as.as_npages2 * PAGE_SIZE)) ∧
    Disjoint (Set.Ico as'.as_pbase1 (as'.as_pbase1 + as.as_npages1 * PAGE_SIZE))
      (Set.Ico as'.as_stackpbase
        (as'.as_stackpbase + DUMBVM_STACKPAGES * PAGE_SIZE)) ∧
    Disjoint (Set.Ico as'.as_pbase2 (as'.as_pbase2 + as.as_npages2 * PAGE_SIZE))
      (Set.Ico as'.as_stackpbase
        (as'.as_stackpbase + DUMBVM_STACKPAGES * PAGE_SIZE)) := by
  subst hr
  unfold as_prepare_load at hpl
  by_cases hpre : as.as_pbase1 = 0 ∧ as.as_pbase2 = 0 ∧ as.as_stackpbase = 0
  case neg =>
    rw [if_neg hpre] at hpl
    exact absurd hpl (by simp)
  rw [if_pos hpre] at hpl
  rcases hg1 : getppages steal st as.as_npages1 with _ | ⟨a1, st1⟩
  · rw [hg1] at hpl
    exact absurd hpl (by simp)
  rw [hg1] at hpl
  dsimp only at hpl
  by_cases ha10 : a1 = 0
  · rw [if_pos ha10] at hpl
    simp only [Option.some.injEq, Prod.mk.injEq] at hpl
    exact absurd hpl.1 (by decide)
  rw [if_neg ha10] at hpl
  rcases hg2 : getppages steal st1 as.as_npages2 with _ | ⟨a2, st2⟩
  · rw [hg2] at hpl
    exact absurd hpl (by simp)
  rw [hg2] at hpl
  dsimp only at hpl
  by_cases ha20 : a2 = 0
  · rw [if_pos ha20] at hpl
    simp only [Option.some.injEq, Prod.mk.injEq] at hpl
    exact absurd hpl.1 (by decide)
  rw [if_neg ha20] at hpl
  rcases hg3 : getppages steal st2 DUMBVM_STACKPAGES with _ | ⟨a3, st3⟩
  · rw [hg3] at hpl
    exact absurd hpl (by simp)
  rw [hg3] at hpl
  dsimp only at hpl
  by_cases ha30 : a3 = 0
  · rw [if_pos ha30] at hpl
    simp only [Option.some.injEq, Prod.mk.injEq] at hpl
    exact absurd hpl.1 (by decide)
  rw [if_neg ha30] at hpl
  simp only [Option.some.injEq, Prod.mk.injEq] at hpl
  rcases hpl with ⟨_, has', hst'⟩
  rcases getppages_init_some steal st _ a1 st1 hvi hg1 with ⟨hc1, hvi1⟩
  rcases getppages_init_some steal st1 _ a2 st2 hvi1 hg2 with ⟨hc2, hvi2⟩
  rcases getppages_init_some steal st2 _ a3 st3 hvi2 hg3 with ⟨hc3, hvi3⟩
  rcases calculate_buddy_spec lo hi st.buddylist as.as_npages1 hn1 hinv a1
      st1.buddylist hc1 with
    ⟨hinv1, hlen1, b1, hb1a, hb1b, m1, hfree1, hfit1, ha1, hm11, hm12, hgot1,
      hpres1, happ1⟩
  rcases calculate_buddy_spec lo hi st1.buddylist as.as_npages2 hn2 hinv1 a2
      st2.buddylist hc2 with
    ⟨hinv2, hlen2, b2, hb2a, hb2b, m2, hfree2, hfit2, ha2, hm21, hm22, hgot2,
      hpres2, happ2⟩
  rcases calculate_buddy_spec lo hi st2.buddylist DUMBVM_STACKPAGES (by decide)
      hinv2 a3 st3.buddylist hc3 with
    ⟨hinv3, hlen3, b3, hb3a, hb3b, m3, hfree3, hfit3, ha3, hm31, hm32, hgot3,
      hpres3, happ3⟩
  -- the three marked blocks live at distinct positions of the final list
  have h1in2 : b1 < st2.buddylist.length := by omega
  have hne21 : b2 ≠ b1 := by
    intro he
    simp only [he] at hfree2
    rw [hgot1 hb1b] at hfree2
    exact absurd hfree2 (by simp)
  have hl2b1 : st2.buddylist[b1] = ⟨a1, m1, true⟩ := by
    rw [hpres2 b1 hb1b (Ne.symm hne21) h1in2]
    exact hgot1 hb1b
  have h1in3 : b1 < st3.buddylist.length := by omega
  have h2in3 : b2 < st3.buddylist.length := by omega
  have hne31 : b3 ≠ b1 := by
    intro he
    simp only [he] at hfree3
    rw [hl2b1] at hfree3
    exact absurd hfree3 (by simp)
  have hne32 : b3 ≠ b2 := by
    intro he
    simp only [he] at hfree3
    rw [hgot2 hb2b] at hfree3
    exact absurd hfree3 (by simp)
  have hl3b1 : st3.buddylist[b1] = ⟨a1, m1, true⟩ := by
    rw [hpres3 b1 h1in2 (Ne.symm hne31) h1in3]
    exact hl2b1
  have hl3b2 : st3.buddylist[b2] = ⟨a2, m2, true⟩ := by
    rw [hpres3 b2 hb2b (Ne.symm hne32) h2in3]
    exact hgot2 hb2b
  have hl3b3 : st3.buddylist[b3] = ⟨a3, m3, true⟩ := hgot3 hb3b
  -- nonzero and aligned bases
  have hbase1 : lo ≤ a1 ∧ a1 % PAGE_SIZE = 0 := by
    have hal := hinv3.aligned b1 h1in3
    rw [hl3b1] at hal
    have hcov := (hinv3.cover_iff a1).1 ⟨b1, h1in3, by
      rw [hl3b1]
      simp only [bmem, PAGE_SIZE]
      omega⟩
    exact ⟨hcov.1, hal⟩
  have hbase2 : lo ≤ a2 ∧ a2 % PAGE_SIZE = 0 := by
    have hal := hinv3.aligned b2 h2in3
    rw [hl3b2] at hal
    have hcov := (hinv3.cover_iff a2).1 ⟨b2, h2in3, by
      rw [hl3b2]
      simp only [bmem, PAGE_SIZE]
      omega⟩
    exact ⟨hcov.1, hal⟩
  have hm3pos : 1 ≤ m3 := by
    simp only [DUMBVM_STACKPAGES] at hm31
    omega
  have hbase3 : lo ≤ a3 ∧ a3 % PAGE_SIZE = 0 := by
    have hal := hinv3.aligned b3 hb3b
    rw [hl3b3] at hal
    have hcov := (hinv3.cover_iff a3).1 ⟨b3, hb3b, by
      rw [hl3b3]
      simp only [bmem, PAGE_SIZE]
      omega⟩
    exact ⟨hcov.1, hal⟩
  -- pairwise disjointness of the full blocks, hence of the reserved ranges
  have hd12 := hinv3.disj b1 b2 h1in3 h2in3 (by omega)
  have hd13 := hinv3.disj b1 b3 h1in3 hb3b (by omega)
  have hd23 := hinv3.disj b2 b3 h2in3 hb3b (by omega)
  rw [hl3b1, hl3b2] at hd12
  rw [hl3b1, hl3b3] at hd13
  rw [hl3b2, hl3b3] at hd23
  have hasp1 : as'.as_pbase1 = a1 := by rw [← has']
  have hasp2 : as'.as_pbase2 = a2 := by rw [← has']
  have hasp3 : as'.as_stackpbase = a3 := by rw [← has']
  rw [hasp1, hasp2, hasp3]
  have hmul1 : as.as_npages1 * PAGE_SIZE ≤ m1 * PAGE_SIZE :=
    Nat.mul_le_mul_right _ hm11
  have hmul2 : as.as_npages2 * PAGE_SIZE ≤ m2 * PAGE_SIZE :=
    Nat.mul_le_mul_right _ hm21
  have hmul3 : DUMBVM_STACKPAGES * PAGE_SIZE ≤ m3 * PAGE_SIZE :=
    Nat.mul_le_mul_right _ hm31
  refine ⟨⟨by omega, hbase1.2⟩, ⟨by omega, hbase2.2⟩, ⟨by omega, hbase3.2⟩,
    ?_, ?_, ?_⟩
  · rw [Set.disjoint_left]
    intro x hx hy
    simp only [Set.mem_Ico] at hx hy
    simp only [PAGE_SIZE, DUMBVM_STACKPAGES] at hx hy hd12 hmul1 hmul2
    omega
  · rw [Set.disjoint_left]
    intro x hx hy
    simp only [Set.mem_Ico] at hx hy
    simp only [PAGE_SIZE, DUMBVM_STACKPAGES] at hx hy hd13 hmul1 hmul3
    omega
  · rw [Set.disjoint_left]
    intro x hx hy
    simp only [Set.mem_Ico] at hx hy
    simp only [PAGE_SIZE, DUMBVM_STACKPAGES] at hx hy hd23 hmul2 hmul3
    omega

/-- Witness for C6: on RAM `[0x1000, 0x1f000)` (30 pages) the three
reservations land at `0x1000`, `0x2000` and `0x10000`, pairwise
disjoint. -/
theorem as_prepare_load_spec_witness :
    as_prepare_load (fun _ => 0) ⟨true, [⟨4096, 30, false⟩]⟩
        ⟨0x400000, 0, 1, 0x410000, 0, 1, 0x7f000000, 0⟩ =
      some (0, ⟨0x400000, 4096, 1, 0x410000, 8192, 1, 0x7f000000, 65536⟩,
        ⟨true, [⟨4096, 1, true⟩, ⟨65536, 15, true⟩, ⟨32768, 8, false⟩,
          ⟨16384, 4, false⟩, ⟨8192, 1, true⟩, ⟨12288, 1, false⟩]⟩) ∧
    (((4096 : Nat) ≠ 0 ∧ (4096 : Nat) % PAGE_SIZE = 0) ∧
     ((8192 : Nat) ≠ 0 ∧ (8192 : Nat) % PAGE_SIZE = 0) ∧
     ((65536 : Nat) ≠ 0 ∧ (65536 : Nat) % PAGE_SIZE = 0) ∧
     Disjoint (Set.Ico (4096 : Nat) (4096 + 1 * PAGE_SIZE))
       (Set.Ico (8192 : Nat) (8192 + 1 * PAGE_SIZE)) ∧
     Disjoint (Set.Ico (4096 : Nat) (4096 + 1 * PAGE_SIZE))
       (Set.Ico (65536 : Nat) (65536 + DUMBVM_STACKPAGES * PAGE_SIZE)) ∧
     Disjoint (Set.Ico (8192 : Nat) (8192 + 1 * PAGE_SIZE))
       (Set.Ico (65536 : Nat) (65536 + DUMBVM_STACKPAGES * PAGE_SIZE))) := by
  have hpl : as_prepare_load (fun _ => 0) ⟨true, [⟨4096, 30, false⟩]⟩
      ⟨0x400000, 0, 1, 0x410000, 0, 1, 0x7f000000, 0⟩ =
      some (0, ⟨0x400000, 4096, 1, 0x410000, 8192, 1, 0x7f000000, 65536⟩,
        ⟨true, [⟨4096, 1, true⟩, ⟨65536, 15, true⟩, ⟨32768, 8, false⟩,
          ⟨16384, 4, false⟩, ⟨8192, 1, true⟩, ⟨12288, 1, false⟩]⟩) := by
    simp [as_prepare_load, getppages, calculate_buddy, find_buddy, find_go,
      split_go, mark_inuse, PAGE_SIZE, DUMBVM_STACKPAGES, ENOMEM]
  refine ⟨hpl, ?_⟩
  have hinv : buddyInv 4096 126976 [⟨4096, 30, false⟩] :=
    vm_reach_inv 4096 126976 (by decide) (by decide) (by decide) _ vm_reach.boot
  exact as_prepare_load_spec (fun _ => 0) ⟨true, [⟨4096, 30, false⟩]⟩
    ⟨0x400000, 0, 1, 0x410000, 0, 1, 0x7f000000, 0⟩ 4096 126976 0
    ⟨0x400000, 4096, 1, 0x410000, 8192, 1, 0x7f000000, 65536⟩
    ⟨true, [⟨4096, 1, true⟩, ⟨65536, 15, true⟩, ⟨32768, 8, false⟩,
      ⟨16384, 4, false⟩, ⟨8192, 1, true⟩, ⟨12288, 1, false⟩]⟩
    rfl hinv (by decide) (by decide) (by decide) hpl rfl

/-! ### Accounting of the in-use blocks, for the as_copy failure path -/

theorem split_go_zero : ∀ (nextsize : Nat) (l : List buddy_entry)
    (buddyi p oldsize : Nat), split_go l buddyi p oldsize nextsize 0 = none := by
  intro nextsize
  induction nextsize using Nat.strong_induction_on with
  | _ nextsize ih =>
    intro l buddyi p oldsize
    rw [split_go]
    rw [if_pos (Nat.zero_le _)]
    by_cases h0 : nextsize = 0
    · rw [dif_pos h0]
    · rw [dif_neg h0]
      exact ih (nextsize / 2) (Nat.div_lt_self (by omega) (by omega)) _ _ _ _

theorem calculate_buddy_pos (l : List buddy_entry) (n a : Nat)
    (l' : List buddy_entry) (hcalc : calculate_buddy l n = some (a, l')) :
    1 ≤ n := by
  by_contra h
  have hn : n = 0 := by omega
  subst hn
  unfold calculate_buddy at hcalc
  rcases hfb : find_buddy l 0 with _ | buddyi
  · rw [hfb] at hcalc
    exact absurd hcalc (by simp)
  · rw [hfb] at hcalc
    dsimp only at hcalc
    rcases hge : l[buddyi]? with _ | be
    · rw [hge] at hcalc
      exact absurd hcalc (by simp)
    · rw [hge] at hcalc
      dsimp only at hcalc
      rw [split_go_zero (be.pages / 2) l buddyi be.paddr be.pages] at hcalc
      exact absurd hcalc (by simp)

theorem buddyInv_unique_paddr (lo hi : Nat) (l : List buddy_entry)
    (hinv : buddyInv lo hi l) :
    ∀ i j, ∀ _ : i < l.length, ∀ _ : j < l.length, i ≠ j →
      l[i].paddr ≠ l[j].paddr := by
  intro i j hi1 hj1 hne heq
  have hd := hinv.disj i j hi1 hj1 hne
  have hpi := hinv.pos i hi1
  have hpj := hinv.pos j hj1
  simp only [PAGE_SIZE] at hd
  omega

theorem calculate_buddy_inuse (lo hi : Nat) (l : List buddy_entry) (n a : Nat)
    (l' : List buddy_entry) (hinv : buddyInv lo hi l)
    (hcalc : calculate_buddy l n = some (a, l')) :
    inuseSet l' = inuseSet l ∪ {a} ∧ a ∉ inuseSet l := by
  have hn := calculate_buddy_pos l n a l' hcalc
  rcases calculate_buddy_spec lo hi l n hn hinv a l' hcalc with
    ⟨hinv', hlen, bi, hbia, hbib, m, hfree, hfit, ha, hm1, hm2, hgot, hpres, happ⟩
  have hnotin : a ∉ inuseSet l := by
    rintro ⟨j, hj, hpj, hij⟩
    by_cases hjb : j = bi
    · subst hjb
      rw [hfree] at hij
      exact absurd hij (by simp)
    · have := buddyInv_unique_paddr lo hi l hinv j bi hj hbia hjb
      rw [hpj, ha] at this
      exact this rfl
  refine ⟨?_, hnotin⟩
  ext x
  simp only [inuseSet, Set.mem_setOf_eq, Set.mem_union, Set.mem_singleton_iff]
  constructor
  · rintro ⟨j, hj, hpj, hij⟩
    by_cases hjb : j = bi
    · subst hjb
      rw [hgot hj] at hpj
      exact Or.inr hpj.symm
    · by_cases hjl : j < l.length
      · rw [hpres j hjl hjb hj] at hpj hij
        exact Or.inl ⟨j, hjl, hpj, hij⟩
      · rw [happ j hj (by omega)] at hij
        exact absurd hij (by simp)
  · rintro (⟨j, hj, hpj, hij⟩ | hx)
    · have hjb : j ≠ bi := by
        intro he
        simp only [he] at hij
        rw [hfree] at hij
        exact absurd hij (by simp)
      refine ⟨j, by omega, ?_, ?_⟩
      · rw [hpres j hj hjb (by omega)]
        exact hpj
      · rw [hpres j hj hjb (by omega)]
        exact hij
    · refine ⟨bi, hbib, ?_, ?_⟩
      · rw [hgot hbib, hx]
      · rw [hgot hbib]

theorem freeppage_get_nomatch (addr : Nat) : ∀ (l : List buddy_entry) (j : Nat),
    ∀ _ : j < l.length, l[j].paddr ≠ addr →
    ∀ _ : j < (freeppage l addr).length, (freeppage l addr)[j] = l[j] := by
  intro l
  induction l with
  | nil =>
    intro j hj
    exact absurd hj (by simp)
  | cons be rest ih =>
    intro j hj hne hj2
    by_cases h : be.paddr = addr
    · simp only [freeppage, if_pos h] at hj2 ⊢
      match j with
      | 0 =>
        rw [List.getElem_cons_zero] at hne
        exact absurd h hne
      | j + 1 => simp
    · simp only [freeppage, if_neg h] at hj2 ⊢
      match j with
      | 0 => simp
      | j + 1 =>
        simp only [List.getElem_cons_succ] at hne ⊢
        exact ih j (by simp at hj; omega) hne (by simp at hj2; omega)

theorem freeppage_inuse_mono (addr : Nat) : ∀ (l : List buddy_entry) (j : Nat),
    ∀ _ : j < l.length, ∀ _ : j < (freeppage l addr).length,
    (freeppage l addr)[j].inuse = true → l[j].inuse = true := by
  intro l
  induction l with
  | nil =>
    intro j hj
    exact absurd hj (by simp)
  | cons be rest ih =>
    intro j hj hj2
    by_cases h : be.paddr = addr
    · simp only [freeppage, if_pos h] at hj2 ⊢
      match j with
      | 0 =>
        intro hfalse
        exact absurd hfalse (by simp)
      | j + 1 => simp
    · simp only [freeppage, if_neg h] at hj2 ⊢
      match j with
      | 0 => simp
      | j + 1 =>
        simp only [List.getElem_cons_succ]
        exact ih j (by simp at hj; omega) (by simp at hj2; omega)

theorem freeppage_clears (addr : Nat) : ∀ (l : List buddy_entry),
    (∀ i j, ∀ _ : i < l.length, ∀ _ : j < l.length, i ≠ j →
      l[i].paddr ≠ l[j].paddr) →
    ∀ j, ∀ _ : j < l.length, l[j].paddr = addr →
    ∀ _ : j < (freeppage l addr).length, (freeppage l addr)[j].inuse = false := by
  intro l
  induction l with
  | nil =>
    intro _ j hj
    exact absurd hj (by simp)
  | cons be rest ih =>
    intro huniq j hj hmatch hj2
    by_cases h : be.paddr = addr
    · simp only [freeppage, if_pos h] at hj2 ⊢
      match j with
      | 0 => simp
      | j + 1 =>
        rw [List.getElem_cons_succ] at hmatch
        have hju : (0 : Nat) ≠ j + 1 := by omega
        have := huniq 0 (j + 1) (by simp) (by simpa using hj) hju
        rw [List.getElem_cons_zero, List.getElem_cons_succ] at this
        rw [hmatch, h] at this
        exact absurd rfl this
    · simp only [freeppage, if_neg h] at hj2 ⊢
      match j with
      | 0 =>
        rw [List.getElem_cons_zero] at hmatch
        exact absurd hmatch h
      | j + 1 =>
        simp only [List.getElem_cons_succ] at hmatch ⊢
        have huniq' : ∀ i k, ∀ _ : i < rest.length, ∀ _ : k < rest.length,
            i ≠ k → rest[i].paddr ≠ rest[k].paddr := by
          intro i k hi1 hk1 hik
          have := huniq (i + 1) (k + 1) (by simp; omega) (by simp; omega) (by omega)
          rwa [List.getElem_cons_succ, List.getElem_cons_succ] at this
        exact ih huniq' j (by simp at hj; omega) hmatch (by simp at hj2; omega)

theorem freeppage_inuseSet (lo hi : Nat) (l : List buddy_entry) (addr : Nat)
    (hinv : buddyInv lo hi l) :
    inuseSet (freeppage l addr) = inuseSet l \ {addr} := by
  have huniq := buddyInv_unique_paddr lo hi l hinv
  have hlen := freeppage_length addr l
  ext x
  simp only [inuseSet, Set.mem_setOf_eq, Set.mem_diff, Set.mem_singleton_iff]
  constructor
  · rintro ⟨j, hj, hpj, hij⟩
    have hjl : j < l.length := by omega
    have hpx : l[j].paddr = x := by
      rw [← (freeppage_geometry addr l j hjl hj).1]
      exact hpj
    by_cases hm : l[j].paddr = addr
    · rw [freeppage_clears addr l huniq j hjl hm hj] at hij
      exact absurd hij (by simp)
    · rw [freeppage_get_nomatch addr l j hjl hm hj] at hij
      refine ⟨⟨j, hjl, hpx, hij⟩, ?_⟩
      rw [← hpx]
      exact hm
  · rintro ⟨⟨j, hj, hpj, hij⟩, hne⟩
    have hj2 : j < (freeppage l addr).length := by omega
    have hm : l[j].paddr ≠ addr := by
      rw [hpj]
      exact hne
    refine ⟨j, hj2, ?_, ?_⟩
    · rw [freeppage_get_nomatch addr l j hj hm hj2]
      exact hpj
    · rw [freeppage_get_nomatch addr l j hj hm hj2]
      exact hij

theorem inuse_cancel_one (S : Set Nat) (a : Nat) (ha : a ∉ S) :
    (((S ∪ {a}) \ {a}) \ {a}) \ {a} = S := by
  ext x
  simp only [Set.mem_diff, Set.mem_union, Set.mem_singleton_iff]
  constructor
  · rintro ⟨⟨⟨h1 | h1, h2⟩, _⟩, _⟩
    · exact h1
    · exact absurd h1 h2
  · intro hx
    have hne : x ≠ a := by
      intro he
      rw [he] at hx
      exact ha hx
    exact ⟨⟨⟨Or.inl hx, hne⟩, hne⟩, hne⟩

theorem inuse_cancel_two (S : Set Nat) (a b : Nat) (ha : a ∉ S)
    (hb : b ∉ S ∪ {a}) :
    ((((S ∪ {a}) ∪ {b}) \ {a}) \ {b}) \ {b} = S := by
  simp only [Set.mem_union, Set.mem_singleton_iff] at hb
  push_neg at hb
  ext x
  simp only [Set.mem_diff, Set.mem_union, Set.mem_singleton_iff]
  constructor
  · rintro ⟨⟨⟨(h1 | h1) | h1, h2⟩, h3⟩, _⟩
    · exact h1
    · exact absurd h1 h2
    · exact absurd h1 h3
  · intro hx
    have hnea : x ≠ a := by
      intro he
      rw [he] at hx
      exact ha hx
    have hneb : x ≠ b := by
      intro he
      rw [he] at hx
      exact hb.1 hx
    exact ⟨⟨⟨Or.inl (Or.inl hx), hnea⟩, hneb⟩, hneb⟩

theorem inuse_cancel_three (S : Set Nat) (a b c : Nat) (ha : a ∉ S)
    (hb : b ∉ S ∪ {a}) (hc : c ∉ (S ∪ {a}) ∪ {b}) :
    (((((S ∪ {a}) ∪ {b}) ∪ {c}) \ {a}) \ {b}) \ {c} = S := by
  simp only [Set.mem_union, Set.mem_singleton_iff] at hb hc
  push_neg at hb hc
  ext x
  simp only [Set.mem_diff, Set.mem_union, Set.mem_singleton_iff]
  constructor
  · rintro ⟨⟨⟨((h1 | h1) | h1) | h1, h2⟩, h3⟩, h4⟩
    · exact h1
    · exact absurd h1 h2
    · exact absurd h1 h3
    · exact absurd h1 h4
  · intro hx
    have hnea : x ≠ a := by
      intro he
      rw [he] at hx
      exact ha hx
    have hneb : x ≠ b := by
      intro he
      rw [he] at hx
      exact hb.1 hx
    have hnec : x ≠ c := by
      intro he
      rw [he] at hx
      exact hc.1.1 hx
    exact ⟨⟨⟨Or.inl (Or.inl (Or.inl hx)), hnea⟩, hneb⟩, hnec⟩

theorem as_prepare_load_fail_account (steal : Nat → Nat) (st : vm_state)
    (as : addrspace) (lo hi r : Nat) (as1 : addrspace) (st1 : vm_state)
    (hvi : st.vm_initialized = true)
    (hinv : buddyInv lo hi st.buddylist)
    (hpl : as_prepare_load steal st as = some (r, as1, st1))
    (hr : r ≠ 0) :
    r = ENOMEM ∧
    inuseSet
      (freeppage (freeppage (freeppage st1.buddylist as1.as_pbase1)
        as1.as_pbase2) as1.as_stackpbase) = inuseSet st.buddylist := by
  unfold as_prepare_load at hpl
  by_cases hpre : as.as_pbase1 = 0 ∧ as.as_pbase2 = 0 ∧ as.as_stackpbase = 0
  case neg =>
    rw [if_neg hpre] at hpl
    exact absurd hpl (by simp)
  rw [if_pos hpre] at hpl
  rcases hg1 : getppages steal st as.as_npages1 with _ | ⟨a1, stA⟩
  · rw [hg1] at hpl
    exact absurd hpl (by simp)
  rw [hg1] at hpl
  dsimp only at hpl
  rcases getppages_init_some steal st _ a1 stA hvi hg1 with ⟨hc1, hviA⟩
  rcases calculate_buddy_inuse lo hi st.buddylist _ a1 stA.buddylist hinv hc1 with
    ⟨hiu1, hni1⟩
  have hinvA : buddyInv lo hi stA.buddylist := by
    have hn1 := calculate_buddy_pos _ _ _ _ hc1
    exact (calculate_buddy_spec lo hi _ _ hn1 hinv _ _ hc1).1
  by_cases ha10 : a1 = 0
  · subst ha10
    rw [if_pos rfl] at hpl
    simp only [Option.some.injEq, Prod.mk.injEq] at hpl
    rcases hpl with ⟨he1, he2, he3⟩
    have f1 : as1.as_pbase1 = 0 := by rw [← he2]
    have f2 : as1.as_pbase2 = 0 := by
      rw [← he2]
      exact hpre.2.1
    have f3 : as1.as_stackpbase = 0 := by
      rw [← he2]
      exact hpre.2.2
    refine ⟨he1.symm, ?_⟩
    rw [f1, f2, f3, ← he3]
    have hinvB := buddyInv_freeppage lo hi stA.buddylist 0 hinvA
    have hinvC := buddyInv_freeppage lo hi _ 0 hinvB
    rw [freeppage_inuseSet lo hi _ 0 hinvC, freeppage_inuseSet lo hi _ 0 hinvB,
      freeppage_inuseSet lo hi _ 0 hinvA, hiu1]
    exact inuse_cancel_one _ 0 hni1
  · rw [if_neg ha10] at hpl
    rcases hg2 : getppages steal stA as.as_npages2 with _ | ⟨a2, stB⟩
    · rw [hg2] at hpl
      exact absurd hpl (by simp)
    rw [hg2] at hpl
    dsimp only at hpl
    rcases getppages_init_some steal stA _ a2 stB hviA hg2 with ⟨hc2, hviB⟩
    rcases calculate_buddy_inuse lo hi stA.buddylist _ a2 stB.buddylist hinvA hc2 with
      ⟨hiu2, hni2⟩
    have hinvB : buddyInv lo hi stB.buddylist := by
      have hn2 := calculate_buddy_pos _ _ _ _ hc2
      exact (calculate_buddy_spec lo hi _ _ hn2 hinvA _ _ hc2).1
    by_cases ha20 : a2 = 0
    · subst ha20
      rw [if_pos rfl] at hpl
      simp only [Option.some.injEq, Prod.mk.injEq] at hpl
      rcases hpl with ⟨he1, he2, he3⟩
      have f1 : as1.as_pbase1 = a1 := by rw [← he2]
      have f2 : as1.as_pbase2 = 0 := by rw [← he2]
      have f3 : as1.as_stackpbase = 0 := by
        rw [← he2]
        exact hpre.2.2
      refine ⟨he1.symm, ?_⟩
      rw [f1, f2, f3, ← he3]
      have hinvB1 := buddyInv_freeppage lo hi stB.buddylist a1 hinvB
      have hinvB2 := buddyInv_freeppage lo hi _ 0 hinvB1
      rw [freeppage_inuseSet lo hi _ 0 hinvB2, freeppage_inuseSet lo hi _ 0 hinvB1,
        freeppage_inuseSet lo hi _ a1 hinvB, hiu2, hiu1]
      rw [hiu1] at hni2
      exact inuse_cancel_two _ a1 0 hni1 hni2
    · rw [if_neg ha20] at hpl
      rcases hg3 : getppages steal stB DUMBVM_STACKPAGES with _ | ⟨a3, stC⟩
      · rw [hg3] at hpl
        exact absurd hpl (by simp)
      rw [hg3] at hpl
      dsimp only at hpl
      rcases getppages_init_some steal stB _ a3 stC hviB hg3 with ⟨hc3, hviC⟩
      rcases calculate_buddy_inuse lo hi stB.buddylist _ a3 stC.buddylist hinvB hc3 with
        ⟨hiu3, hni3⟩
      have hinvC : buddyInv lo hi stC.buddylist := by
        have hn3 := calculate_buddy_pos _ _ _ _ hc3
        exact (calculate_buddy_spec lo hi _ _ hn3 hinvB _ _ hc3).1
      by_cases ha30 : a3 = 0
      · subst ha30
        rw [if_pos rfl] at hpl
        simp only [Option.some.injEq, Prod.mk.injEq] at hpl
        rcases hpl with ⟨he1, he2, he3⟩
        have f1 : as1.as_pbase1 = a1 := by rw [← he2]
        have f2 : as1.as_pbase2 = a2 := by rw [← he2]
        have f3 : as1.as_stackpbase = 0 := by rw [← he2]
        refine ⟨he1.symm, ?_⟩
        rw [f1, f2, f3, ← he3]
        have hinvC1 := buddyInv_freeppage lo hi stC.buddylist a1 hinvC
        have hinvC2 := buddyInv_freeppage lo hi _ a2 hinvC1
        rw [freeppage_inuseSet lo hi _ 0 hinvC2, freeppage_inuseSet lo hi _ a2 hinvC1,
          freeppage_inuseSet lo hi _ a1 hinvC, hiu3, hiu2, hiu1]
        rw [hiu1] at hni2
        rw [hiu2, hiu1] at hni3
        exact inuse_cancel_three _ a1 a2 0 hni1 hni2 hni3
      · rw [if_neg ha30] at hpl
        simp only [Option.some.injEq, Prod.mk.injEq] at hpl
        exact absurd hpl.1.symm hr

/-! ### C10: as_copy failure leaves no trace -/

/-- C10: if the internal `as_prepare_load` of `as_copy` fails, `as_copy`
returns `ENOMEM`, leaves `*ret` unmodified, and destroys the partially
built address space: afterwards exactly the blocks that were in use
before the call are in use, so no reserved frame leaks. -/
theorem as_copy_fail_spec (steal : Nat → Nat) (st : vm_state) (old : addrspace)
    (lo hi r : Nat) (st' : vm_state) (w : Option addrspace)
    (hvi : st.vm_initialized = true)
    (hinv : buddyInv lo hi st.buddylist)
    (hcp : as_copy steal st old = some (r, st', w))
    (hr : r ≠ 0) :
    r = ENOMEM ∧ w = none ∧ inuseSet st'.buddylist = inuseSet st.buddylist := by
  unfold as_copy at hcp
  dsimp only at hcp
  rcases hp : as_prepare_load steal st
      { as_create with
        as_vbase1 := old.as_vbase1, as_npages1 := old.as_npages1,
        as_vbase2 := old.as_vbase2, as_npages2 := old.as_npages2,
        as_stackvbase := old.as_stackvbase } with _ | ⟨r1, new1, st1⟩
  · rw [hp] at hcp
    exact absurd hcp (by simp)
  · rw [hp] at hcp
    dsimp only at hcp
    by_cases hr1 : r1 ≠ 0
    · rw [if_pos hr1] at hcp
      simp only [Option.some.injEq, Prod.mk.injEq] at hcp
      rcases hcp with ⟨he1, he2, he3⟩
      rcases as_prepare_load_fail_account steal st _ lo hi r1 new1 st1 hvi hinv
        hp hr1 with ⟨hrE, hacc⟩
      refine ⟨he1.symm, he3.symm, ?_⟩
      rw [← he2]
      exact hacc
    · rw [if_neg hr1] at hcp
      split at hcp
      · simp only [Option.some.injEq, Prod.mk.injEq] at hcp
        exact absurd hcp.1.symm hr
      · exact absurd hcp (by simp)

/-- Witness for C10: with a single free block at physical address 0,
the first allocation "succeeds" with base 0, `as_prepare_load` reports
`ENOMEM`, and `as_copy` destroys the new space, returning the in-use
set to its prior (empty) value with `*ret` untouched. -/
theorem as_copy_fail_spec_witness :
    as_copy (fun _ => 0) ⟨true, [⟨0, 1, false⟩]⟩
        ⟨0x400000, 0, 1, 0x410000, 0, 1, 0x7f000000, 0⟩ =
      some (ENOMEM, ⟨true, [⟨0, 1, false⟩]⟩, none) ∧
    ((ENOMEM : Nat) = ENOMEM ∧ (none : Option addrspace) = none ∧
      inuseSet (⟨true, [⟨0, 1, false⟩]⟩ : vm_state).buddylist =
        inuseSet (⟨true, [⟨0, 1, false⟩]⟩ : vm_state).buddylist) := by
  have hcp : as_copy (fun _ => 0) ⟨true, [⟨0, 1, false⟩]⟩
      ⟨0x400000, 0, 1, 0x410000, 0, 1, 0x7f000000, 0⟩ =
      some (ENOMEM, ⟨true, [⟨0, 1, false⟩]⟩, none) := by
    simp [as_copy, as_create, as_destroy, as_prepare_load, getppages,
      calculate_buddy, find_buddy, find_go, split_go, mark_inuse, freeppage,
      PAGE_SIZE, DUMBVM_STACKPAGES, ENOMEM]
  have hinv : buddyInv 0 4096 [⟨0, 1, false⟩] :=
    vm_reach_inv 0 4096 (by decide) (by decide) (by decide) _ vm_reach.boot
  exact ⟨hcp, as_copy_fail_spec (fun _ => 0) ⟨true, [⟨0, 1, false⟩]⟩
    ⟨0x400000, 0, 1, 0x410000, 0, 1, 0x7f000000, 0⟩ 0 4096 ENOMEM
    ⟨true, [⟨0, 1, false⟩]⟩ none rfl hinv hcp (by decide)⟩

/-! ### vm_fault: successful translation and TLB installation -/

theorem land_page_frame_self (x : Nat) (hx : x < U32) (hal : x % PAGE_SIZE = 0) :
    x &&& PAGE_FRAME = x := by
  rw [land_page_frame x hx]
  show x / 4096 * 4096 = x
  simp only [PAGE_SIZE] at hal
  omega

theorem tlb_probe_write_spec (ehi elo : Nat) : ∀ (tlb : List (Nat × Nat)),
    (∃ p, p ∈ tlb ∧ p.2 &&& TLBLO_VALID = 0) →
    ∃ tlb', tlb_probe_write tlb ehi elo = some tlb' ∧
      tlb'.length = tlb.length ∧
      ∃ k, ∃ _ : k < tlb'.length, tlb'[k] = (ehi, elo) := by
  intro tlb
  induction tlb with
  | nil =>
    rintro ⟨p, hp, _⟩
    exact absurd hp (by simp)
  | cons q rest ih =>
    rintro ⟨p, hp, hfree⟩
    rcases q with ⟨qh, ql⟩
    by_cases hv : ql &&& TLBLO_VALID ≠ 0
    · have hrest : ∃ p, p ∈ rest ∧ p.2 &&& TLBLO_VALID = 0 := by
        rcases List.mem_cons.1 hp with he | hm
        · rw [he] at hfree
          exact absurd hfree hv
        · exact ⟨p, hm, hfree⟩
      rcases ih hrest with ⟨tlb', hw, hlen, k, hk, hget⟩
      refine ⟨(qh, ql) :: tlb', ?_, by simp [hlen], k + 1, by simp; omega, ?_⟩
      · simp only [tlb_probe_write, if_pos hv, hw, Option.map_some']
      · rw [List.getElem_cons_succ]
        exact hget
    · refine ⟨(ehi, elo) :: rest, ?_, by simp, 0, by simp, by simp⟩
      simp only [tlb_probe_write, if_neg hv]

theorem stackbase_exact (sv : Nat) (h1 : sv < U32)
    (h2 : DUMBVM_STACKPAGES * PAGE_SIZE ≤ sv) :
    (sv + U32 - DUMBVM_STACKPAGES * PAGE_SIZE) % U32 =
      sv - DUMBVM_STACKPAGES * PAGE_SIZE := by
  simp only [U32, DUMBVM_STACKPAGES, PAGE_SIZE] at *
  omega

/-- C3 (amended): for a well-formed address space (the asserted fields,
a page-aligned `stackvbase`, no 32-bit wrap in the region bounds) and a
fault address whose page lies in region 1, region 2 or the stack range,
a READ or WRITE fault returns 0 and installs a TLB entry with the VALID
and DIRTY bits set whose page frame is the physical address translated
per the region that matched (region 1 first, then region 2, then the
stack) — provided at least one of the TLB slots is invalid. -/
theorem vm_fault_maps_region (ft fadr : Nat) (as : addrspace)
    (tlb : List (Nat × Nat)) (spl : Nat)
    (hft : ft = VM_FAULT_READ ∨ ft = VM_FAULT_WRITE)
    (hwf1 : as.as_vbase1 ≠ 0) (hwf2 : as.as_pbase1 ≠ 0) (hwf3 : as.as_npages1 ≠ 0)
    (hwf4 : as.as_vbase2 ≠ 0) (hwf5 : as.as_pbase2 ≠ 0) (hwf6 : as.as_npages2 ≠ 0)
    (hwf7 : as.as_stackpbase ≠ 0)
    (hal1 : as.as_vbase1 % PAGE_SIZE = 0) (hal2 : as.as_pbase1 % PAGE_SIZE = 0)
    (hal3 : as.as_vbase2 % PAGE_SIZE = 0) (hal4 : as.as_pbase2 % PAGE_SIZE = 0)
    (hal5 : as.as_stackpbase % PAGE_SIZE = 0) (hal6 : as.as_stackvbase % PAGE_SIZE = 0)
    (hnw1 : as.as_vbase1 + as.as_npages1 * PAGE_SIZE < U32)
    (hnw2 : as.as_vbase2 + as.as_npages2 * PAGE_SIZE < U32)
    (hnw3 : as.as_pbase1 + as.as_npages1 * PAGE_SIZE < U32)
    (hnw4 : as.as_pbase2 + as.as_npages2 * PAGE_SIZE < U32)
    (hnw5 : as.as_stackpbase + DUMBVM_STACKPAGES * PAGE_SIZE < U32)
    (hsv1 : as.as_stackvbase < U32)
    (hsv2 : DUMBVM_STACKPAGES * PAGE_SIZE ≤ as.as_stackvbase)
    (hfree : ∃ p, p ∈ tlb ∧ p.2 &&& TLBLO_VALID = 0)
    (hin : (as.as_vbase1 ≤ fadr &&& PAGE_FRAME ∧
        fadr &&& PAGE_FRAME < as.as_vbase1 + as.as_npages1 * PAGE_SIZE) ∨
      (as.as_vbase2 ≤ fadr &&& PAGE_FRAME ∧
        fadr &&& PAGE_FRAME < as.as_vbase2 + as.as_npages2 * PAGE_SIZE) ∨
      (as.as_stackvbase - DUMBVM_STACKPAGES * PAGE_SIZE ≤ fadr &&& PAGE_FRAME ∧
        fadr &&& PAGE_FRAME < as.as_stackvbase)) :
    ∃ pa tlb' k,
      vm_fault ft fadr (some as) tlb spl = some (0, tlb', spl) ∧
      pa = (if as.as_vbase1 ≤ fadr &&& PAGE_FRAME ∧
            fadr &&& PAGE_FRAME < as.as_vbase1 + as.as_npages1 * PAGE_SIZE then
          (fadr &&& PAGE_FRAME) - as.as_vbase1 + as.as_pbase1
        else if as.as_vbase2 ≤ fadr &&& PAGE_FRAME ∧
            fadr &&& PAGE_FRAME < as.as_vbase2 + as.as_npages2 * PAGE_SIZE then
          (fadr &&& PAGE_FRAME) - as.as_vbase2 + as.as_pbase2
        else
          (fadr &&& PAGE_FRAME) - (as.as_stackvbase - DUMBVM_STACKPAGES * PAGE_SIZE) +
            as.as_stackpbase) ∧
      tlb'.length = tlb.length ∧
      (∃ _ : k < tlb'.length,
        tlb'[k] = (fadr &&& PAGE_FRAME, pa ||| TLBLO_DIRTY ||| TLBLO_VALID)) ∧
      (pa ||| TLBLO_DIRTY ||| TLBLO_VALID) &&& TLBLO_VALID ≠ 0 ∧
      (pa ||| TLBLO_DIRTY ||| TLBLO_VALID) &&& TLBLO_DIRTY ≠ 0 ∧
      (pa ||| TLBLO_DIRTY ||| TLBLO_VALID) &&& PAGE_FRAME = pa := by
  have hva := land_page_frame_props fadr
  have hro : ¬(ft = VM_FAULT_READONLY) := by
    rcases hft with h | h <;> rw [h] <;> decide
  have hinv2 : ¬(ft ≠ VM_FAULT_READ ∧ ft ≠ VM_FAULT_WRITE) := by
    rcases hft with h | h <;> rw [h] <;> decide
  have hlt1 : as.as_vbase1 < U32 := by omega
  have hlt2 : as.as_pbase1 < U32 := by omega
  have hlt3 : as.as_vbase2 < U32 := by omega
  have hlt4 : as.as_pbase2 < U32 := by omega
  have hlt5 : as.as_stackpbase < U32 := by omega
  have hwfconj : as.as_vbase1 ≠ 0 ∧ as.as_pbase1 ≠ 0 ∧ as.as_npages1 ≠ 0 ∧
      as.as_vbase2 ≠ 0 ∧ as.as_pbase2 ≠ 0 ∧ as.as_npages2 ≠ 0 ∧
      as.as_stackpbase ≠ 0 ∧
      as.as_vbase1 &&& PAGE_FRAME = as.as_vbase1 ∧
      as.as_pbase1 &&& PAGE_FRAME = as.as_pbase1 ∧
      as.as_vbase2 &&& PAGE_FRAME = as.as_vbase2 ∧
      as.as_pbase2 &&& PAGE_FRAME = as.as_pbase2 ∧
      as.as_stackpbase &&& PAGE_FRAME = as.as_stackpbase :=
    ⟨hwf1, hwf2, hwf3, hwf4, hwf5, hwf6, hwf7,
      land_page_frame_self _ hlt1 hal1, land_page_frame_self _ hlt2 hal2,
      land_page_frame_self _ hlt3 hal3, land_page_frame_self _ hlt4 hal4,
      land_page_frame_self _ hlt5 hal5⟩
  by_cases hc1 : as.as_vbase1 ≤ fadr &&& PAGE_FRAME ∧
      fadr &&& PAGE_FRAME < as.as_vbase1 + as.as_npages1 * PAGE_SIZE
  · have hpal : ((fadr &&& PAGE_FRAME) - as.as_vbase1 + as.as_pbase1) % PAGE_SIZE = 0 := by
      simp only [PAGE_SIZE] at hva hal1 hal2 ⊢
      omega
    have hpalt : (fadr &&& PAGE_FRAME) - as.as_vbase1 + as.as_pbase1 < U32 := by
      omega
    rcases tlb_probe_write_spec (fadr &&& PAGE_FRAME)
        (((fadr &&& PAGE_FRAME) - as.as_vbase1 + as.as_pbase1) ||| TLBLO_DIRTY |||
          TLBLO_VALID) tlb hfree with ⟨tlbW, hW, hlenW, k, hkW, hgetW⟩
    refine ⟨(fadr &&& PAGE_FRAME) - as.as_vbase1 + as.as_pbase1, tlbW, k,
      ?_, ?_, hlenW, ⟨hkW, hgetW⟩, ?_, ?_, ?_⟩
    · simp only [vm_fault]
      rw [if_neg hro, if_neg hinv2, if_pos hwfconj,
        Nat.mod_eq_of_lt hnw1, if_pos hc1]
      dsimp only
      rw [Nat.mod_eq_of_lt hpalt, if_pos (land_page_frame_self _ hpalt hpal), hW]
    · rw [if_pos hc1]
    · rw [elo_valid_set _ hpal]
      decide
    · rw [elo_dirty_set _ hpal]
      decide
    · refine elo_page_frame _ hpal ?_
      simp only [PAGE_SIZE, U32] at hpal hpalt ⊢
      omega
  · by_cases hc2 : as.as_vbase2 ≤ fadr &&& PAGE_FRAME ∧
        fadr &&& PAGE_FRAME < as.as_vbase2 + as.as_npages2 * PAGE_SIZE
    · have hpal : ((fadr &&& PAGE_FRAME) - as.as_vbase2 + as.as_pbase2) % PAGE_SIZE = 0 := by
        simp only [PAGE_SIZE] at hva hal3 hal4 ⊢
        omega
      have hpalt : (fadr &&& PAGE_FRAME) - as.as_vbase2 + as.as_pbase2 < U32 := by
        omega
      rcases tlb_probe_write_spec (fadr &&& PAGE_FRAME)
          (((fadr &&& PAGE_FRAME) - as.as_vbase2 + as.as_pbase2) ||| TLBLO_DIRTY |||
            TLBLO_VALID) tlb hfree with ⟨tlbW, hW, hlenW, k, hkW, hgetW⟩
      refine ⟨(fadr &&& PAGE_FRAME) - as.as_vbase2 + as.as_pbase2, tlbW, k,
        ?_, ?_, hlenW, ⟨hkW, hgetW⟩, ?_, ?_, ?_⟩
      · simp only [vm_fault]
        rw [if_neg hro, if_neg hinv2, if_pos hwfconj,
          Nat.mod_eq_of_lt hnw1, if_neg hc1, Nat.mod_eq_of_lt hnw2, if_pos hc2]
        dsimp only
        rw [Nat.mod_eq_of_lt hpalt, if_pos (land_page_frame_self _ hpalt hpal), hW]
      · rw [if_neg hc1, if_pos hc2]
      · rw [elo_valid_set _ hpal]
        decide
      · rw [elo_dirty_set _ hpal]
        decide
      · refine elo_page_frame _ hpal ?_
        simp only [PAGE_SIZE, U32] at hpal hpalt ⊢
        omega
    · have hc3 : as.as_stackvbase - DUMBVM_STACKPAGES * PAGE_SIZE ≤
          fadr &&& PAGE_FRAME ∧ fadr &&& PAGE_FRAME < as.as_stackvbase := by
        rcases hin with h | h | h
        · exact absurd h hc1
        · exact absurd h hc2
        · exact h
      have hpal : ((fadr &&& PAGE_FRAME) -
          (as.as_stackvbase - DUMBVM_STACKPAGES * PAGE_SIZE) +
          as.as_stackpbase) % PAGE_SIZE = 0 := by
        simp only [PAGE_SIZE, DUMBVM_STACKPAGES] at hva hal5 hal6 hc3 ⊢
        omega
      have hpalt : (fadr &&& PAGE_FRAME) -
          (as.as_stackvbase - DUMBVM_STACKPAGES * PAGE_SIZE) +
          as.as_stackpbase < U32 := by
        simp only [PAGE_SIZE, DUMBVM_STACKPAGES, U32] at hnw5 hc3 hsv2 ⊢
        omega
      rcases tlb_probe_write_spec (fadr &&& PAGE_FRAME)
          (((fadr &&& PAGE_FRAME) -
            (as.as_stackvbase - DUMBVM_STACKPAGES * PAGE_SIZE) +
            as.as_stackpbase) ||| TLBLO_DIRTY ||| TLBLO_VALID) tlb hfree with
        ⟨tlbW, hW, hlenW, k, hkW, hgetW⟩
      refine ⟨(fadr &&& PAGE_FRAME) -
          (as.as_stackvbase - DUMBVM_STACKPAGES * PAGE_SIZE) + as.as_stackpbase,
        tlbW, k, ?_, ?_, hlenW, ⟨hkW, hgetW⟩, ?_, ?_, ?_⟩
      · simp only [vm_fault]
        rw [if_neg hro, if_neg hinv2, if_pos hwfconj,
          Nat.mod_eq_of_lt hnw1, if_neg hc1, Nat.mod_eq_of_lt hnw2, if_neg hc2,
          stackbase_exact as.as_stackvbase hsv1 hsv2, if_pos hc3]
        dsimp only
        rw [Nat.mod_eq_of_lt hpalt, if_pos (land_page_frame_self _ hpalt hpal), hW]
      · rw [if_neg hc1, if_neg hc2]
      · rw [elo_valid_set _ hpal]
        decide
      · rw [elo_dirty_set _ hpal]
        decide
      · refine elo_page_frame _ hpal ?_
        simp only [PAGE_SIZE, U32] at hpal hpalt ⊢
        omega

/-- C3 counterexample: with every TLB slot valid, a READ fault inside
region 1 of a well-formed address space returns `EFAULT` and installs
nothing, refuting the claim without the free-slot proviso. -/
theorem vm_fault_tlb_full_example :
    vm_fault VM_FAULT_READ 0x00400abc
      (some ⟨0x400000, 0x280000, 2, 0x410000, 0x290000, 1, 0x7f000000, 0x2a0000⟩)
      (List.replicate 64 (0, TLBLO_VALID)) 0 =
      some (EFAULT, List.replicate 64 (0, TLBLO_VALID), 0) ∧ EFAULT ≠ 0 := by
  exact ⟨by decide, by decide⟩

/-- Witness for the amended C3, scenario S4: a READ fault at
`0x00400abc` in region 1 installs `(0x00400000, 0x00280000 | DIRTY | VALID)`. -/
theorem vm_fault_maps_region_witness :
    ∃ pa tlb' k,
      vm_fault VM_FAULT_READ 0x00400abc
        (some ⟨0x400000, 0x280000, 2, 0x410000, 0x290000, 1, 0x7f000000, 0x2a0000⟩)
        [(0, 0), (0, 0)] 0 = some (0, tlb', 0) ∧
      pa = (if (0x400000 : Nat) ≤ 0x00400abc &&& PAGE_FRAME ∧
            (0x00400abc : Nat) &&& PAGE_FRAME < 0x400000 + 2 * PAGE_SIZE then
          ((0x00400abc : Nat) &&& PAGE_FRAME) - 0x400000 + 0x280000
        else if (0x410000 : Nat) ≤ 0x00400abc &&& PAGE_FRAME ∧
            (0x00400abc : Nat) &&& PAGE_FRAME < 0x410000 + 1 * PAGE_SIZE then
          ((0x00400abc : Nat) &&& PAGE_FRAME) - 0x410000 + 0x290000
        else
          ((0x00400abc : Nat) &&& PAGE_FRAME) -
            ((0x7f000000 : Nat) - DUMBVM_STACKPAGES * PAGE_SIZE) + 0x2a0000) ∧
      tlb'.length = ([(0, 0), (0, 0)] : List (Nat × Nat)).length ∧
      (∃ _ : k < tlb'.length,
        tlb'[k] = ((0x00400abc : Nat) &&& PAGE_FRAME,
          pa ||| TLBLO_DIRTY ||| TLBLO_VALID)) ∧
      (pa ||| TLBLO_DIRTY ||| TLBLO_VALID) &&& TLBLO_VALID ≠ 0 ∧
      (pa ||| TLBLO_DIRTY ||| TLBLO_VALID) &&& TLBLO_DIRTY ≠ 0 ∧
      (pa ||| TLBLO_DIRTY ||| TLBLO_VALID) &&& PAGE_FRAME = pa :=
  vm_fault_maps_region VM_FAULT_READ 0x00400abc
    ⟨0x400000, 0x280000, 2, 0x410000, 0x290000, 1, 0x7f000000, 0x2a0000⟩
    [(0, 0), (0, 0)] 0 (Or.inl rfl)
    (by decide) (by decide) (by decide) (by decide) (by decide) (by decide)
    (by decide) (by decide) (by decide) (by decide) (by decide) (by decide)
    (by decide) (by decide) (by decide) (by decide) (by decide) (by decide)
    (by decide) (by decide) (by decide) (by decide)

/-! ### C9: the page-alignment assertion before TLB installation -/

/-- C9 (amended): for an address space satisfying the entry assertions
of `vm_fault` and additionally a page-aligned `stackvbase` (as
`as_define_stack` establishes), and a READ or WRITE fault, the computed
physical address is page-aligned, so the alignment assertion never
fails and the call returns a result. -/
theorem vm_fault_paddr_aligned (ft fadr : Nat) (as : addrspace)
    (tlb : List (Nat × Nat)) (spl : Nat)
    (hft : ft = VM_FAULT_READ ∨ ft = VM_FAULT_WRITE)
    (hwf1 : as.as_vbase1 ≠ 0) (hwf2 : as.as_pbase1 ≠ 0) (hwf3 : as.as_npages1 ≠ 0)
    (hwf4 : as.as_vbase2 ≠ 0) (hwf5 : as.as_pbase2 ≠ 0) (hwf6 : as.as_npages2 ≠ 0)
    (hwf7 : as.as_stackpbase ≠ 0)
    (hal1 : as.as_vbase1 % PAGE_SIZE = 0) (hal2 : as.as_pbase1 % PAGE_SIZE = 0)
    (hal3 : as.as_vbase2 % PAGE_SIZE = 0) (hal4 : as.as_pbase2 % PAGE_SIZE = 0)
    (hal5 : as.as_stackpbase % PAGE_SIZE = 0) (hal6 : as.as_stackvbase % PAGE_SIZE = 0)
    (hlt1 : as.as_vbase1 < U32) (hlt2 : as.as_pbase1 < U32)
    (hlt3 : as.as_vbase2 < U32) (hlt4 : as.as_pbase2 < U32)
    (hlt5 : as.as_stackpbase < U32) :
    vm_fault ft fadr (some as) tlb spl ≠ none := by
  have hva := land_page_frame_props fadr
  have hro : ¬(ft = VM_FAULT_READONLY) := by
    rcases hft with h | h <;> rw [h] <;> decide
  have hinv2 : ¬(ft ≠ VM_FAULT_READ ∧ ft ≠ VM_FAULT_WRITE) := by
    rcases hft with h | h <;> rw [h] <;> decide
  have hwfconj : as.as_vbase1 ≠ 0 ∧ as.as_pbase1 ≠ 0 ∧ as.as_npages1 ≠ 0 ∧
      as.as_vbase2 ≠ 0 ∧ as.as_pbase2 ≠ 0 ∧ as.as_npages2 ≠ 0 ∧
      as.as_stackpbase ≠ 0 ∧
      as.as_vbase1 &&& PAGE_FRAME = as.as_vbase1 ∧
      as.as_pbase1 &&& PAGE_FRAME = as.as_pbase1 ∧
      as.as_vbase2 &&& PAGE_FRAME = as.as_vbase2 ∧
      as.as_pbase2 &&& PAGE_FRAME = as.as_pbase2 ∧
      as.as_stackpbase &&& PAGE_FRAME = as.as_stackpbase :=
    ⟨hwf1, hwf2, hwf3, hwf4, hwf5, hwf6, hwf7,
      land_page_frame_self _ hlt1 hal1, land_page_frame_self _ hlt2 hal2,
      land_page_frame_self _ hlt3 hal3, land_page_frame_self _ hlt4 hal4,
      land_page_frame_self _ hlt5 hal5⟩
  intro hnone
  simp only [vm_fault] at hnone
  rw [if_neg hro, if_neg hinv2, if_pos hwfconj] at hnone
  split at hnone
  · exact absurd hnone (by simp)
  · rename_i paddr heq
    have hal : paddr % PAGE_SIZE = 0 ∧ paddr < U32 := by
      split at heq
      · rename_i hcc
        have hpv : paddr = ((fadr &&& PAGE_FRAME) - as.as_vbase1 + as.as_pbase1)
            % U32 := (Option.some.inj heq).symm
        constructor
        · rw [hpv]
          simp only [PAGE_SIZE, U32] at hva hal1 hal2 hcc ⊢
          omega
        · rw [hpv]
          exact Nat.mod_lt _ (by decide)
      · split at heq
        · rename_i hcc
          have hpv : paddr = ((fadr &&& PAGE_FRAME) - as.as_vbase2 + as.as_pbase2)
              % U32 := (Option.some.inj heq).symm
          constructor
          · rw [hpv]
            simp only [PAGE_SIZE, U32] at hva hal3 hal4 hcc ⊢
            omega
          · rw [hpv]
            exact Nat.mod_lt _ (by decide)
        · split at heq
          · rename_i hcc
            have hpv : paddr = ((fadr &&& PAGE_FRAME) -
                (as.as_stackvbase + U32 - DUMBVM_STACKPAGES * PAGE_SIZE) % U32 +
                as.as_stackpbase) % U32 := (Option.some.inj heq).symm
            constructor
            · rw [hpv]
              simp only [PAGE_SIZE, U32, DUMBVM_STACKPAGES] at hva hal5 hal6 hcc ⊢
              omega
            · rw [hpv]
              exact Nat.mod_lt _ (by decide)
          · exact absurd heq (by simp)
    rw [if_pos (land_page_frame_self paddr hal.2 hal.1)] at hnone
    split at hnone
    · exact absurd hnone (by simp)
    · exact absurd hnone (by simp)

/-- C9 counterexample: with an unaligned `stackvbase` (which no entry
assertion checks) and a fault in the stack range, the computed physical
address is unaligned and the assertion fires (modelled `none`), although
all the alignments the claim lists do hold. -/
theorem vm_fault_unaligned_stackvbase_example :
    vm_fault VM_FAULT_READ 0x7eff5000
      (some ⟨0x400000, 0x280000, 2, 0x410000, 0x290000, 1, 0x7f000800, 0x2a0000⟩)
      [(0, 0)] 0 = none ∧
    (0x400000 : Nat) % PAGE_SIZE = 0 ∧ (0x280000 : Nat) % PAGE_SIZE = 0 ∧
    (0x410000 : Nat) % PAGE_SIZE = 0 ∧ (0x290000 : Nat) % PAGE_SIZE = 0 ∧
    (0x2a0000 : Nat) % PAGE_SIZE = 0 := by
  exact ⟨by decide, by decide, by decide, by decide, by decide, by decide⟩

/-- Witness for the amended C9 at a stack-range fault with an aligned
`stackvbase`. -/
theorem vm_fault_paddr_aligned_witness :
    vm_fault VM_FAULT_READ 0x7eff5000
      (some ⟨0x400000, 0x280000, 2, 0x410000, 0x290000, 1, 0x7f000000, 0x2a0000⟩)
      [(0, 0)] 0 ≠ none :=
  vm_fault_paddr_aligned VM_FAULT_READ 0x7eff5000
    ⟨0x400000, 0x280000, 2, 0x410000, 0x290000, 1, 0x7f000000, 0x2a0000⟩
    [(0, 0)] 0 (Or.inl rfl)
    (by decide) (by decide) (by decide) (by decide) (by decide) (by decide)
    (by decide) (by decide) (by decide) (by decide) (by decide) (by decide)
    (by decide) (by decide) (by decide) (by decide) (by decide) (by decide)
